import Mathlib

set_option maxHeartbeats 1600000

namespace R2Y

/-! Shallow embedding of rgb2yuv.hpp (namespace r2y).  Machine bytes are
modelled as Nat (uint8 values), int32 arithmetic as Int (the conversion
expressions never approach the int32 range), and the uint16 chroma
accumulators carry an explicit % 65536 at every compound assignment. -/

/-- rgb_t: three 8-bit channels in byte order b_, g_, r_ (rgb2yuv.hpp:57). -/
structure Rgb where
  b : Nat
  g : Nat
  r : Nat
deriving DecidableEq

/-- plane_type (rgb2yuv.hpp:96-105). -/
inductive Plane
  | Y
  | U
  | V
  | R
  | G
  | B
deriving DecidableEq

/-- convertor: five int32 factors fa_..fe_ (rgb2yuv.hpp:382-396). -/
structure Convertor where
  fa : Int
  fb : Int
  fc : Int
  fd : Int
  fe : Int
deriving DecidableEq

/-- convertor::clip: saturate an int32 to [0,255] and cast to uint8. -/
def clip (v : Int) : Nat :=
  if v < 0 then 0 else if v > 255 then 255 else v.toNat

/-- convertor::convert: clip(((fa*a_ + fb*b_ + fc*c_ + fd_) >> 8) + fe_).
The C++ right shift of a (possibly negative) int32 by 8 is an arithmetic
shift, i.e. floor division by 256, which is Int.fdiv. -/
def Convertor.convert (cv : Convertor) (a b c : Nat) : Nat :=
  clip (Int.fdiv (cv.fa * a + cv.fb * b + cv.fc * c + cv.fd) 256 + cv.fe)

/-- factor_matrix (rgb2yuv.hpp:398-415), indexed by plane_type. -/
def factor_matrix : Plane → Convertor
  | Plane.Y => ⟨66, 129, 25, 128, 16⟩
  | Plane.U => ⟨-38, -74, 112, 128, 128⟩
  | Plane.V => ⟨112, -94, -18, 128, 128⟩
  | Plane.R => ⟨298, 0, 409, -56992, 0⟩
  | Plane.G => ⟨298, -100, -208, 34784, 0⟩
  | Plane.B => ⟨298, 516, 0, -70688, 0⟩

/-- pixel_convert<P>(rgb_t const &): planes_t::cast maps the rgb_t fields
b_, g_, r_ onto planes_t fields c_, b_, a_, so a_ = r, b_ = g, c_ = b
(rgb2yuv.hpp:374-380, 417-428). -/
def pixel_convert (P : Plane) (p : Rgb) : Nat :=
  (factor_matrix P).convert p.r p.g p.b

/-- Spec-side clamp, from the claim text: saturate to [0,255]. -/
def clamp (v : Int) : Nat :=
  (max 0 (min v 255)).toNat

/-- Spec-side constant rows (c1, c2, c3, d, e) exactly as listed in claim C1. -/
def claim_row : Plane → Int × Int × Int × Int × Int
  | Plane.Y => (66, 129, 25, 128, 16)
  | Plane.U => (-38, -74, 112, 128, 128)
  | Plane.V => (112, -94, -18, 128, 128)
  | _ => (0, 0, 0, 0, 0)

/-- Spec-side formula from claim C1: clamp(((c1*R + c2*G + c3*B + d) >> 8) + e),
with >> the arithmetic shift (floor division by 256). -/
def claim_pixel_value (P : Plane) (R G B : Nat) : Nat :=
  clamp (Int.fdiv ((claim_row P).1 * R + (claim_row P).2.1 * G +
                   (claim_row P).2.2.1 * B + (claim_row P).2.2.2.1) 256 +
         (claim_row P).2.2.2.2)

/-- supported format tags (rgb2yuv.hpp:60-94); aliases (YUYV, I420, Y411)
share the enumerator of their canonical name and are not repeated. -/
inductive Supported
  | rgb_888
  | rgb_565
  | rgb_555
  | rgb_444
  | rgb_888X
  | yuv_NV24
  | yuv_NV42
  | yuv_YUY2
  | yuv_YVYU
  | yuv_UYVY
  | yuv_VYUY
  | yuv_422P
  | yuv_YV12
  | yuv_YU12
  | yuv_NV12
  | yuv_NV21
  | yuv_Y41P
  | yuv_411P
  | yuv_YVU9
  | yuv_YUV9
deriving DecidableEq

/-- calculate_size<S> = detail_create_buffer_::impl_<S>::size
(rgb2yuv.hpp:441-546), with sizeof(rgb_t) = 3, sizeof(uint16_t) = 2,
sizeof(uint32_t) = 4, sizeof(yuv_t) = 3. -/
def calculate_size : Supported → Nat → Nat → Nat
  | Supported.rgb_888, w, h => (w * h) * 3
  | Supported.rgb_565, w, h => (w * h) * 2
  | Supported.rgb_555, w, h => (w * h) * 2
  | Supported.rgb_444, w, h => (w * h * 3 + 1) >>> 1
  | Supported.rgb_888X, w, h => (w * h) * 4
  | Supported.yuv_NV24, w, h => (w * h) * 3
  | Supported.yuv_NV42, w, h => (w * h) * 3
  | Supported.yuv_YUY2, w, h => (w * h) <<< 1
  | Supported.yuv_YVYU, w, h => (w * h) <<< 1
  | Supported.yuv_UYVY, w, h => (w * h) <<< 1
  | Supported.yuv_VYUY, w, h => (w * h) <<< 1
  | Supported.yuv_422P, w, h => (w * h) <<< 1
  | Supported.yuv_YV12, w, h => w * h + ((w * h) >>> 1)
  | Supported.yuv_YU12, w, h => w * h + ((w * h) >>> 1)
  | Supported.yuv_NV12, w, h => w * h + ((w * h) >>> 1)
  | Supported.yuv_NV21, w, h => w * h + ((w * h) >>> 1)
  | Supported.yuv_Y41P, w, h => w * h + ((w * h) >>> 1)
  | Supported.yuv_411P, w, h => w * h + ((w * h) >>> 1)
  | Supported.yuv_YVU9, w, h => w * h + ((w * h) >>> 3)
  | Supported.yuv_YUV9, w, h => w * h + ((w * h) >>> 3)

/-- Divisibility preconditions asserted by each impl_<S>::size
(rgb2yuv.hpp: the assert((s & k) == 0) lines). -/
def size_pre : Supported → Nat → Nat → Prop
  | Supported.yuv_YUY2, w, h => (w * h) % 2 = 0
  | Supported.yuv_YVYU, w, h => (w * h) % 2 = 0
  | Supported.yuv_UYVY, w, h => (w * h) % 2 = 0
  | Supported.yuv_VYUY, w, h => (w * h) % 2 = 0
  | Supported.yuv_422P, w, h => (w * h) % 2 = 0
  | Supported.yuv_YV12, w, h => (w * h) % 4 = 0
  | Supported.yuv_YU12, w, h => (w * h) % 4 = 0
  | Supported.yuv_NV12, w, h => (w * h) % 4 = 0
  | Supported.yuv_NV21, w, h => (w * h) % 4 = 0
  | Supported.yuv_Y41P, w, h => (w * h) % 8 = 0
  | Supported.yuv_411P, w, h => (w * h) % 4 = 0
  | Supported.yuv_YVU9, w, h => (w * h) % 16 = 0
  | Supported.yuv_YUV9, w, h => (w * h) % 16 = 0
  | _, _, _ => True

/-- Spec-side per-family formulas exactly as listed in claim C3. -/
def required_bytes_spec : Supported → Nat → Nat → Nat
  | Supported.rgb_888, w, h => w * h * 3
  | Supported.rgb_565, w, h => w * h * 2
  | Supported.rgb_555, w, h => w * h * 2
  | Supported.rgb_444, w, h => (w * h * 3 + 1) / 2
  | Supported.rgb_888X, w, h => w * h * 4
  | Supported.yuv_NV24, w, h => w * h * 3
  | Supported.yuv_NV42, w, h => w * h * 3
  | Supported.yuv_YUY2, w, h => w * h * 2
  | Supported.yuv_YVYU, w, h => w * h * 2
  | Supported.yuv_UYVY, w, h => w * h * 2
  | Supported.yuv_VYUY, w, h => w * h * 2
  | Supported.yuv_422P, w, h => w * h * 2
  | Supported.yuv_YV12, w, h => w * h + w * h / 2
  | Supported.yuv_YU12, w, h => w * h + w * h / 2
  | Supported.yuv_NV12, w, h => w * h + w * h / 2
  | Supported.yuv_NV21, w, h => w * h + w * h / 2
  | Supported.yuv_Y41P, w, h => w * h + w * h / 2
  | Supported.yuv_411P, w, h => w * h + w * h / 2
  | Supported.yuv_YVU9, w, h => w * h + w * h / 8
  | Supported.yuv_YUV9, w, h => w * h + w * h / 8

/-- scope_block<T> state: block_ (an optional address, none = NULL),
count_ and trust_ (rgb2yuv.hpp:155-267).  The element type is carried
separately as its size in bytes where needed. -/
structure SB where
  block : Option Nat
  count : Nat
  trust : Bool
deriving DecidableEq

/-- allocator::alloc: NULL for size 0, otherwise operator new(nothrow),
modelled by an oracle newFn that may fail (rgb2yuv.hpp:138-149). -/
def r2y_alloc (newFn : Nat → Option Nat) (size : Nat) : Option Nat :=
  if size = 0 then none else newFn size

/-- scope_block<T>::reset(count): count_ = count; block_ = alloc(size());
trust_ = true, where size() = count_ * sizeof(T) (rgb2yuv.hpp:194-200). -/
def sb_reset (newFn : Nat → Option Nat) (szT cnt : Nat) : SB :=
  ⟨r2y_alloc newFn (cnt * szT), cnt, true⟩

/-- scope_block<T>::size() = count() * sizeof(T) (rgb2yuv.hpp:255). -/
def sb_size (szT : Nat) (s : SB) : Nat :=
  s.count * szT

/-- scope_block<T>::swap<U>(rhs) (rgb2yuv.hpp:225-238): the pointers are
exchanged, each count is recomputed from the incoming byte size by integer
division by the receiving element size, and the trust flags are exchanged.
First component: this (element size szT); second: rhs (element size szU). -/
def sb_swap_cross (szT szU : Nat) (a b : SB) : SB × SB :=
  (⟨b.block, sb_size szU b / szT, b.trust⟩, ⟨a.block, sb_size szT a / szU, a.trust⟩)

/-- scope_block<T>::move<U>(rhs) just swaps with rhs after a const_cast
(rgb2yuv.hpp:212-216); the converting constructor starts from
block_ = NULL, count_ = 0, trust_ = false and then moves (hpp:182-187). -/
def sb_move (szT szU : Nat) (dst src : SB) : SB × SB :=
  sb_swap_cross szT szU dst src

/-- Freshly value-constructed state of the converting constructor before it
moves: block_ = NULL, count_ = 0, trust_ = false (rgb2yuv.hpp:183-186). -/
def sb_empty : SB :=
  ⟨none, 0, false⟩

/-- Destructor observable effect: frees block_ iff trust_ is set
(rgb2yuv.hpp:189-192); freeing a NULL pointer frees nothing. -/
def sb_dtor_frees (s : SB) : Option Nat :=
  if s.trust then s.block else none

/-- Byte-addressed memory for the RGB normalizer model. -/
def Mem : Type :=
  Nat → Nat

/-- Reading a byte_t. -/
def read_byte (mem : Mem) (a : Nat) : Nat :=
  mem a % 256

/-- Reading a uint16_t through the reinterpret_cast in the 16-bit
unpackers: two bytes, native little-endian. -/
def read_u16le (mem : Mem) (a : Nat) : Nat :=
  read_byte mem a + 256 * read_byte mem (a + 1)

/-- Storing one rgb_t: bytes b_, g_, r_ at offsets 0, 1, 2. -/
def write_rgb_at (mem : Mem) (a : Nat) (p : Rgb) : Mem :=
  fun i => if i = a then p.b else if i = a + 1 then p.g else if i = a + 2 then p.r else mem i

/-- R2Y_BMP_16_TRANSFORM_HELPER_(0xF800, 0x07E0, 0x001F, >> 8, >> 3, << 3)
pixel unpacking for rgb_565 (rgb2yuv.hpp:309-315). -/
def bmp565_pixel (v : Nat) : Rgb :=
  ⟨((v &&& 0x001F) <<< 3) % 256, ((v &&& 0x07E0) >>> 3) % 256, ((v &&& 0xF800) >>> 8) % 256⟩

/-- R2Y_BMP_16_TRANSFORM_HELPER_(0x7C00, 0x03E0, 0x001F, >> 7, >> 2, << 3)
pixel unpacking for rgb_555 (rgb2yuv.hpp:317-323). -/
def bmp555_pixel (v : Nat) : Rgb :=
  ⟨((v &&& 0x001F) <<< 3) % 256, ((v &&& 0x03E0) >>> 2) % 256, ((v &&& 0x7C00) >>> 7) % 256⟩

/-- Loop body of the 16-bit unpackers: n iterations, each reading one
uint16 pixel at inA and writing one rgb_t at otA. -/
def bmp16_to888 (pixFn : Nat → Rgb) : Nat → Nat → Nat → Mem → Mem
  | _, _, 0, mem => mem
  | inA, otA, n + 1, mem =>
      bmp16_to888 pixFn (inA + 2) (otA + 3) n
        (write_rgb_at mem otA (pixFn (read_u16le mem inA)))

/-- impl_<rgb_444>::to_888 loop body (rgb2yuv.hpp:327-345): n iterations,
each consuming 3 input bytes and producing 2 pixels via nibble extraction.
The three input bytes are read before the six output bytes are written;
this matches the source order because the assert guarantees the buffers
are distinct. -/
def rgb444_to888 : Nat → Nat → Nat → Mem → Mem
  | _, _, 0, mem => mem
  | inA, otA, n + 1, mem =>
      let x0 := read_byte mem inA
      let x1 := read_byte mem (inA + 1)
      let x2 := read_byte mem (inA + 2)
      let m1 := write_rgb_at mem otA
        ⟨((x0 &&& 0x0F) <<< 4) % 256, x0 &&& 0xF0, ((x1 &&& 0x0F) <<< 4) % 256⟩
      let m2 := write_rgb_at m1 (otA + 3)
        ⟨x1 &&& 0xF0, ((x2 &&& 0x0F) <<< 4) % 256, x2 &&& 0xF0⟩
      rgb444_to888 (inA + 3) (otA + 6) n m2

/-- impl_<rgb_888X>::to_888 loop body (rgb2yuv.hpp:347-360): n iterations,
each copying the first 3 bytes of a 4-byte group verbatim. -/
def rgb888X_to888 : Nat → Nat → Nat → Mem → Mem
  | _, _, 0, mem => mem
  | inA, otA, n + 1, mem =>
      rgb888X_to888 (inA + 4) (otA + 3) n
        (write_rgb_at mem otA
          ⟨read_byte mem inA, read_byte mem (inA + 1), read_byte mem (inA + 2)⟩)

/-- detail_transform_::rgb_formatter<S>::to_888 (rgb2yuv.hpp:567-585).
For rgb_888 the result borrows the input pointer (reset(block, count) sets
trust_ = false) and impl_<rgb_888>::to_888 does nothing; for every other
RGB format a fresh rgb_888 buffer at otAddr (the address handed out by the
allocator for create_buffer<rgb_888>) is filled by rgb_format<S> after its
assert(in_rgb != ot_rgb), modelled by returning none when the assertion
fails.  The iteration counts are the number of loop-body executions for an
input of calculate_size S w h bytes.  The returned block is reported in
byte elements (the converting constructor re-splits 3*(w*h) bytes).
Allocation failure would dereference NULL (undefined behavior) and is
outside this model; yuv tags have no rgb_formatter specialization. -/
def rgb_formatter (S : Supported) (inAddr otAddr w h : Nat) (mem : Mem) :
    Option (SB × Mem) :=
  match S with
  | Supported.rgb_888 => some (⟨some inAddr, w * h * 3, false⟩, mem)
  | Supported.rgb_565 =>
      if inAddr = otAddr then none else
      some (⟨some otAddr, w * h * 3, true⟩,
        bmp16_to888 bmp565_pixel inAddr otAddr
          ((calculate_size Supported.rgb_565 w h + 1) / 2) mem)
  | Supported.rgb_555 =>
      if inAddr = otAddr then none else
      some (⟨some otAddr, w * h * 3, true⟩,
        bmp16_to888 bmp555_pixel inAddr otAddr
          ((calculate_size Supported.rgb_555 w h + 1) / 2) mem)
  | Supported.rgb_444 =>
      if inAddr = otAddr then none else
      some (⟨some otAddr, w * h * 3, true⟩,
        rgb444_to888 inAddr otAddr
          ((calculate_size Supported.rgb_444 w h + 2) / 3) mem)
  | Supported.rgb_888X =>
      if inAddr = otAddr then none else
      some (⟨some otAddr, w * h * 3, true⟩,
        rgb888X_to888 inAddr otAddr
          ((calculate_size Supported.rgb_888X w h + 3) / 4) mem)
  | _ => none

/-- yuv_t<Tar> for the packed 4:2:2 targets (rgb2yuv.hpp:589-593). -/
inductive Packed422
  | YUY2
  | YVYU
  | UYVY
  | VYUY
deriving DecidableEq

/-- Memory layout of one 4-byte group of yuv_t<Tar>: the struct fields in
declaration (= byte) order, given the computed y0, cb, y1, cr values. -/
def packed422_bytes : Packed422 → Nat → Nat → Nat → Nat → List Nat
  | Packed422.YUY2, y0, cb, y1, cr => [y0, cb, y1, cr]
  | Packed422.YVYU, y0, cb, y1, cr => [y0, cr, y1, cb]
  | Packed422.UYVY, y0, cb, y1, cr => [cb, y0, cr, y1]
  | Packed422.VYUY, y0, cb, y1, cr => [cr, y0, cb, y1]

/-- transform_to<YUY2/YVYU/UYVY/VYUY> (rgb2yuv.hpp:604-628): pixels are
consumed two at a time; the first pixel seeds the uint16 accumulators, the
second is added (mod 65536), each chroma is halved (>> 1) and stored into a
byte (mod 256).  A trailing odd pixel would be an out-of-bounds read in the
source; the model stops there. -/
def transform_packed422 (tag : Packed422) : List Rgb → List Nat
  | p0 :: p1 :: rest =>
      packed422_bytes tag (pixel_convert Plane.Y p0)
        ((((pixel_convert Plane.U p0 + pixel_convert Plane.U p1) % 65536) >>> 1) % 256)
        (pixel_convert Plane.Y p1)
        ((((pixel_convert Plane.V p0 + pixel_convert Plane.V p1) % 65536) >>> 1) % 256) ++
      transform_packed422 tag rest
  | _ => []

/-- transform_to<yuv_422P> (rgb2yuv.hpp:797-824): same pairwise halving,
Y bytes to the Y plane (first component), chroma pairs via
set_and_next<yuv_422P> (>> 1, stored mod 256) to the U/V planes (second
component, in emission order). -/
def transform_422P : List Rgb → List Nat × List (Nat × Nat)
  | p0 :: p1 :: rest =>
      let r := transform_422P rest
      (pixel_convert Plane.Y p0 :: pixel_convert Plane.Y p1 :: r.1,
       ((((pixel_convert Plane.U p0 + pixel_convert Plane.U p1) % 65536) >>> 1) % 256,
        (((pixel_convert Plane.V p0 + pixel_convert Plane.V p1) % 65536) >>> 1) % 256) :: r.2)
  | _ => ([], [])

/-- transform_to<yuv_411P> (rgb2yuv.hpp:879-908): pixels consumed four at a
time; the first seeds the accumulators, the next three are added (each +=
mod 65536); set_and_next<yuv_411P> stores (sum >> 2) mod 256 once per
group. -/
def transform_411P : List Rgb → List Nat × List (Nat × Nat)
  | p0 :: p1 :: p2 :: p3 :: rest =>
      let r := transform_411P rest
      (pixel_convert Plane.Y p0 :: pixel_convert Plane.Y p1 ::
       pixel_convert Plane.Y p2 :: pixel_convert Plane.Y p3 :: r.1,
       ((((((pixel_convert Plane.U p0 + pixel_convert Plane.U p1) % 65536 +
             pixel_convert Plane.U p2) % 65536 +
            pixel_convert Plane.U p3) % 65536) >>> 2) % 256,
        (((((pixel_convert Plane.V p0 + pixel_convert Plane.V p1) % 65536 +
             pixel_convert Plane.V p2) % 65536 +
            pixel_convert Plane.V p3) % 65536) >>> 2) % 256) :: r.2)
  | _ => ([], [])

/-- transform_to<yuv_Y41P> (rgb2yuv.hpp:632-664): pixels consumed eight at
a time into the 12-byte yuv_t<yuv_Y41P> macro-block, fields in byte order
u0_, y0_, v0_, y1_, u1_, y2_, v1_, y3_, y4_, y5_, y6_, y7_; u0_/v0_ hold
the chroma sum of pixels 0-3 (>> 2, mod 256), u1_/v1_ of pixels 4-7. -/
def transform_Y41P : List Rgb → List Nat
  | p0 :: p1 :: p2 :: p3 :: p4 :: p5 :: p6 :: p7 :: rest =>
      (((((pixel_convert Plane.U p0 + pixel_convert Plane.U p1) % 65536 +
           pixel_convert Plane.U p2) % 65536 + pixel_convert Plane.U p3) % 65536) >>> 2) % 256 ::
      pixel_convert Plane.Y p0 ::
      (((((pixel_convert Plane.V p0 + pixel_convert Plane.V p1) % 65536 +
           pixel_convert Plane.V p2) % 65536 + pixel_convert Plane.V p3) % 65536) >>> 2) % 256 ::
      pixel_convert Plane.Y p1 ::
      (((((pixel_convert Plane.U p4 + pixel_convert Plane.U p5) % 65536 +
           pixel_convert Plane.U p6) % 65536 + pixel_convert Plane.U p7) % 65536) >>> 2) % 256 ::
      pixel_convert Plane.Y p2 ::
      (((((pixel_convert Plane.V p4 + pixel_convert Plane.V p5) % 65536 +
           pixel_convert Plane.V p6) % 65536 + pixel_convert Plane.V p7) % 65536) >>> 2) % 256 ::
      pixel_convert Plane.Y p3 ::
      pixel_convert Plane.Y p4 :: pixel_convert Plane.Y p5 ::
      pixel_convert Plane.Y p6 :: pixel_convert Plane.Y p7 ::
      transform_Y41P rest
  | _ => []

/-- Transient state of the 2D subsampling writers (4:2:0 and 4:1:0): the
uint16 accumulator rows u_tmp/v_tmp as functions from cell index, the Y
bytes written so far (row-major), and the chroma pairs emitted so far by
set_and_next, in emission order. -/
@[ext]
structure AccSt where
  accU : Nat → Nat
  accV : Nat → Nat
  ys : List Nat
  uvs : List (Nat × Nat)

/-- Pointwise array cell update, u_tmp[k] = v. -/
def upd (f : Nat → Nat) (i v : Nat) : Nat → Nat :=
  fun k => if k = i then v else f k

/-- transform_to<YV12/YU12/NV12/NV21> (rgb2yuv.hpp:828-875), one column
step.  First Bool: is_h_even as seen in the loop body (true on the second
source row of each pair: the flag starts false and toggles after each row).
Second Bool: is_w_even as seen in the body (true on the second column of
each pair).  The accumulator cell is k = j >> 1; += wraps the uint16 mod
65536; set_and_next<Tar> stores (sum >> 2) into a byte (mod 256).  All
four 4:2:0 tags share this logic; the tag only selects where the emitted
pair lands (separate U/V planes or interleaved UV plane), not its value. -/
def step420 : Bool → Bool → (Nat → Rgb) → Nat → AccSt → AccSt
  | false, false, row, j, st =>
      { st with
        ys := st.ys ++ [pixel_convert Plane.Y (row j)],
        accU := upd st.accU (j / 2) (pixel_convert Plane.U (row j)),
        accV := upd st.accV (j / 2) (pixel_convert Plane.V (row j)) }
  | false, true, row, j, st =>
      { st with
        ys := st.ys ++ [pixel_convert Plane.Y (row j)],
        accU := upd st.accU (j / 2) ((st.accU (j / 2) + pixel_convert Plane.U (row j)) % 65536),
        accV := upd st.accV (j / 2) ((st.accV (j / 2) + pixel_convert Plane.V (row j)) % 65536) }
  | true, false, row, j, st =>
      { st with
        ys := st.ys ++ [pixel_convert Plane.Y (row j)],
        accU := upd st.accU (j / 2) ((st.accU (j / 2) + pixel_convert Plane.U (row j)) % 65536),
        accV := upd st.accV (j / 2) ((st.accV (j / 2) + pixel_convert Plane.V (row j)) % 65536) }
  | true, true, row, j, st =>
      { st with
        ys := st.ys ++ [pixel_convert Plane.Y (row j)],
        accU := upd st.accU (j / 2) ((st.accU (j / 2) + pixel_convert Plane.U (row j)) % 65536),
        accV := upd st.accV (j / 2) ((st.accV (j / 2) + pixel_convert Plane.V (row j)) % 65536),
        uvs := st.uvs ++
          [((((st.accU (j / 2) + pixel_convert Plane.U (row j)) % 65536) >>> 2) % 256,
            (((st.accV (j / 2) + pixel_convert Plane.V (row j)) % 65536) >>> 2) % 256)] }

/-- One source row of the 4:2:0 writer: is_w_even starts false and toggles
after every column. -/
def row420 (isHEven : Bool) (row : Nat → Rgb) (w : Nat) (st : AccSt) : AccSt :=
  ((List.range w).foldl (fun p j => (step420 isHEven p.2 row j p.1, !p.2)) (st, false)).1

/-- Whole-image 4:2:0 writer: is_h_even starts false and toggles after
every row; st0 carries the (uninitialized) accumulator contents and the
empty output lists. -/
def transform420 (px : Nat → Nat → Rgb) (w h : Nat) (st0 : AccSt) : AccSt :=
  ((List.range h).foldl (fun p i => (row420 p.2 (px i) w p.1, !p.2)) (st0, false)).1

/-- Accumulate branch of the 4:1:0 writer (u_tmp[k] += ..., v_tmp[k] += ...,
k = j >> 2), shared by all non-assign non-emit cases. -/
def acc410 (row : Nat → Rgb) (j : Nat) (st : AccSt) : AccSt :=
  { st with
    ys := st.ys ++ [pixel_convert Plane.Y (row j)],
    accU := upd st.accU (j / 4) ((st.accU (j / 4) + pixel_convert Plane.U (row j)) % 65536),
    accV := upd st.accV (j / 4) ((st.accV (j / 4) + pixel_convert Plane.V (row j)) % 65536) }

/-- transform_to<YUV9/YVU9> (rgb2yuv.hpp:912-982), one column step.
hFlag is the h_flag value seen by the row (cycling 1,2,3,4: it starts at 1,
is incremented after each row, and is reset to 0 just before the increment
by the case-4 row), wFlag likewise the w_flag value seen by the column.
Row with h_flag 1: w_flag 1 assigns, every other w_flag accumulates (the
case 4 arm only resets the flag and falls through to default).  Rows with
h_flag 2 or 3 always accumulate.  Row with h_flag 4: w_flag 4 emits via
set_and_next (>> 4, stored mod 256) after accumulating, others accumulate.
Cell index is k = j >> 2.  Both 4:1:0 tags share this logic. -/
def step410 (hFlag wFlag : Nat) (row : Nat → Rgb) (j : Nat) (st : AccSt) : AccSt :=
  if hFlag = 1 then
    if wFlag = 1 then
      { st with
        ys := st.ys ++ [pixel_convert Plane.Y (row j)],
        accU := upd st.accU (j / 4) (pixel_convert Plane.U (row j)),
        accV := upd st.accV (j / 4) (pixel_convert Plane.V (row j)) }
    else
      acc410 row j st
  else if hFlag = 4 then
    if wFlag = 4 then
      { st with
        ys := st.ys ++ [pixel_convert Plane.Y (row j)],
        accU := upd st.accU (j / 4) ((st.accU (j / 4) + pixel_convert Plane.U (row j)) % 65536),
        accV := upd st.accV (j / 4) ((st.accV (j / 4) + pixel_convert Plane.V (row j)) % 65536),
        uvs := st.uvs ++
          [((((st.accU (j / 4) + pixel_convert Plane.U (row j)) % 65536) >>> 4) % 256,
            (((st.accV (j / 4) + pixel_convert Plane.V (row j)) % 65536) >>> 4) % 256)] }
    else
      acc410 row j st
  else
    acc410 row j st

/-- One source row of the 4:1:0 writer: w_flag starts at 1 and cycles
1,2,3,4 (reset to 0 before the increment at 4). -/
def row410 (hFlag : Nat) (row : Nat → Rgb) (w : Nat) (st : AccSt) : AccSt :=
  ((List.range w).foldl
    (fun p j => (step410 hFlag p.2 row j p.1, (if p.2 = 4 then 0 else p.2) + 1)) (st, 1)).1

/-- Whole-image 4:1:0 writer: h_flag starts at 1 and cycles 1,2,3,4. -/
def transform410 (px : Nat → Nat → Rgb) (w h : Nat) (st0 : AccSt) : AccSt :=
  ((List.range h).foldl
    (fun p i => (row410 p.2 (px i) w p.1, (if p.2 = 4 then 0 else p.2) + 1)) (st0, 1)).1

/-- Consecutive pixel pairs of a list (spec side, claim C4). -/
def pairs {α : Type} : List α → List (α × α)
  | a :: b :: rest => (a, b) :: pairs rest
  | _ => []

/-- Consecutive pixel quadruples of a list (spec side, 4:1:1). -/
def quads {α : Type} : List α → List (α × α × α × α)
  | a :: b :: c :: d :: rest => (a, b, c, d) :: quads rest
  | _ => []

/-- Sum of the converted P-channel over two pixels (spec side). -/
def sum2 (P : Plane) (a b : Rgb) : Nat :=
  pixel_convert P a + pixel_convert P b

/-- Sum of the converted P-channel over four pixels (spec side). -/
def sum4 (P : Plane) (a b c d : Rgb) : Nat :=
  pixel_convert P a + pixel_convert P b + pixel_convert P c + pixel_convert P d

/-- Sum of the converted P-channel over one 2x2 pixel block (spec side,
claim C2), rows 2*bi and 2*bi+1, columns 2*bj and 2*bj+1. -/
def blockSum420 (P : Plane) (px : Nat → Nat → Rgb) (bi bj : Nat) : Nat :=
  sum4 P (px (2 * bi) (2 * bj)) (px (2 * bi) (2 * bj + 1))
         (px (2 * bi + 1) (2 * bj)) (px (2 * bi + 1) (2 * bj + 1))

/-- Sum of the converted P-channel over four consecutive pixels of one row
starting at column 4*bj (spec side). -/
def rowSum4 (P : Plane) (row : Nat → Rgb) (bj : Nat) : Nat :=
  pixel_convert P (row (4 * bj)) + pixel_convert P (row (4 * bj + 1)) +
  pixel_convert P (row (4 * bj + 2)) + pixel_convert P (row (4 * bj + 3))

/-- Sum of the converted P-channel over one 4x4 pixel block (spec side). -/
def blockSum410 (P : Plane) (px : Nat → Nat → Rgb) (bi bj : Nat) : Nat :=
  rowSum4 P (px (4 * bi)) bj + rowSum4 P (px (4 * bi + 1)) bj +
  rowSum4 P (px (4 * bi + 2)) bj + rowSum4 P (px (4 * bi + 3)) bj

/-- Row-major per-pixel Y plane (spec side). -/
def yPlane (px : Nat → Nat → Rgb) (w h : Nat) : List Nat :=
  ((List.range h).map (fun i => (List.range w).map (fun j => pixel_convert Plane.Y (px i j)))).flatten

/-- Spec-side 4:2:0 chroma emission list for an image of t block rows and
n block columns: each 2x2 block sum shifted right by 2 (claim C2). -/
def chroma420_claim (px : Nat → Nat → Rgb) (n t : Nat) : List (Nat × Nat) :=
  ((List.range t).map (fun bi => (List.range n).map (fun bj =>
    (blockSum420 Plane.U px bi bj >>> 2, blockSum420 Plane.V px bi bj >>> 2)))).flatten

/-- Spec-side 4:1:0 chroma emission list: each 4x4 block sum shifted right
by 4. -/
def chroma410_claim (px : Nat → Nat → Rgb) (n t : Nat) : List (Nat × Nat) :=
  ((List.range t).map (fun bi => (List.range n).map (fun bj =>
    (blockSum410 Plane.U px bi bj >>> 4, blockSum410 Plane.V px bi bj >>> 4)))).flatten

/-- Spec-side 4-byte group from claim C4: Y bytes are the direct per-pixel
conversions, the shared chroma bytes are (U0+U1)>>1 and (V0+V1)>>1, and the
byte order within the group is fixed by the tag. -/
def packed422_group_claim (tag : Packed422) (p0 p1 : Rgb) : List Nat :=
  match tag with
  | Packed422.YUY2 =>
      [pixel_convert Plane.Y p0, sum2 Plane.U p0 p1 >>> 1,
       pixel_convert Plane.Y p1, sum2 Plane.V p0 p1 >>> 1]
  | Packed422.YVYU =>
      [pixel_convert Plane.Y p0, sum2 Plane.V p0 p1 >>> 1,
       pixel_convert Plane.Y p1, sum2 Plane.U p0 p1 >>> 1]
  | Packed422.UYVY =>
      [sum2 Plane.U p0 p1 >>> 1, pixel_convert Plane.Y p0,
       sum2 Plane.V p0 p1 >>> 1, pixel_convert Plane.Y p1]
  | Packed422.VYUY =>
      [sum2 Plane.V p0 p1 >>> 1, pixel_convert Plane.Y p0,
       sum2 Plane.U p0 p1 >>> 1, pixel_convert Plane.Y p1]

/-- Spec-side 4:2:2 planar chroma pair for one pixel pair. -/
def chroma422_claim (q : Rgb × Rgb) : Nat × Nat :=
  (sum2 Plane.U q.1 q.2 >>> 1, sum2 Plane.V q.1 q.2 >>> 1)

/-- Spec-side 4:1:1 planar chroma pair for one pixel quadruple. -/
def chroma411_claim (q : Rgb × Rgb × Rgb × Rgb) : Nat × Nat :=
  (sum4 Plane.U q.1 q.2.1 q.2.2.1 q.2.2.2 >>> 2,
   sum4 Plane.V q.1 q.2.1 q.2.2.1 q.2.2.2 >>> 2)

/-- Spec-side Y41P macro-block stream: layout U0,Y0,V0,Y1,U1,Y2,V1,Y3,
Y4..Y7 with exact (unwrapped) 4-pixel chroma sums shifted right by 2. -/
def y41p_claim : List Rgb → List Nat
  | p0 :: p1 :: p2 :: p3 :: p4 :: p5 :: p6 :: p7 :: rest =>
      (sum4 Plane.U p0 p1 p2 p3 >>> 2) :: pixel_convert Plane.Y p0 ::
      (sum4 Plane.V p0 p1 p2 p3 >>> 2) :: pixel_convert Plane.Y p1 ::
      (sum4 Plane.U p4 p5 p6 p7 >>> 2) :: pixel_convert Plane.Y p2 ::
      (sum4 Plane.V p4 p5 p6 p7 >>> 2) :: pixel_convert Plane.Y p3 ::
      pixel_convert Plane.Y p4 :: pixel_convert Plane.Y p5 ::
      pixel_convert Plane.Y p6 :: pixel_convert Plane.Y p7 ::
      y41p_claim rest
  | _ => []

/-- Spec-side Y41P macro-block stream with each chroma byte written as the
exact floor of the arithmetic mean (sum / 4) of its 4-pixel group
(claim C10). -/
def y41p_mean : List Rgb → List Nat
  | p0 :: p1 :: p2 :: p3 :: p4 :: p5 :: p6 :: p7 :: rest =>
      (sum4 Plane.U p0 p1 p2 p3 / 4) :: pixel_convert Plane.Y p0 ::
      (sum4 Plane.V p0 p1 p2 p3 / 4) :: pixel_convert Plane.Y p1 ::
      (sum4 Plane.U p4 p5 p6 p7 / 4) :: pixel_convert Plane.Y p2 ::
      (sum4 Plane.V p4 p5 p6 p7 / 4) :: pixel_convert Plane.Y p3 ::
      pixel_convert Plane.Y p4 :: pixel_convert Plane.Y p5 ::
      pixel_convert Plane.Y p6 :: pixel_convert Plane.Y p7 ::
      y41p_mean rest
  | _ => []

theorem clip_eq_clamp (v : Int) : clip v = clamp v := by
  unfold clip clamp
  rcases lt_or_le v 0 with h | h
  · rw [if_pos h]
    omega
  · rw [if_neg (not_lt.mpr h)]
    rcases le_or_lt v 255 with h2 | h2
    · rw [if_neg (not_lt.mpr h2)]
      omega
    · rw [if_pos h2]
      omega

theorem clip_le_255 (v : Int) : clip v ≤ 255 := by
  unfold clip
  split
  · omega
  · split
    · omega
    · omega

theorem pixel_convert_le_255 (P : Plane) (p : Rgb) : pixel_convert P p ≤ 255 := by
  unfold pixel_convert Convertor.convert
  exact clip_le_255 _

/-- Claim C1 (amended): for every plane role in {Y, U, V} and channels in
[0,255], pixel_convert returns clamp(((c1*R + c2*G + c3*B + d) >> 8) + e)
with the constant rows Y: (66,129,25,128,16), U: (-38,-74,112,128,128),
V: (112,-94,-18,128,128); for (R,G,B) = (255,0,0) it returns Y=82 (not 81
as the claim stated), U=90, V=240. -/
theorem C1_pixel_convert_formula :
    (∀ P : Plane, (P = Plane.Y ∨ P = Plane.U ∨ P = Plane.V) →
      ∀ R G B : Nat, R ≤ 255 → G ≤ 255 → B ≤ 255 →
        pixel_convert P ⟨B, G, R⟩ = claim_pixel_value P R G B) ∧
    pixel_convert Plane.Y ⟨0, 0, 255⟩ = 82 ∧
    pixel_convert Plane.U ⟨0, 0, 255⟩ = 90 ∧
    pixel_convert Plane.V ⟨0, 0, 255⟩ = 240 := by
  refine ⟨?_, by decide, by decide, by decide⟩
  intro P hP R G B _ _ _
  rcases hP with h | h | h <;> subst h <;>
    simp [pixel_convert, Convertor.convert, factor_matrix, claim_pixel_value,
          claim_row, clip_eq_clamp]

/-- Witness for C1_pixel_convert_formula at P = U, (R,G,B) = (200,10,30). -/
theorem C1_pixel_convert_formula_witness :
    pixel_convert Plane.U ⟨30, 10, 200⟩ = claim_pixel_value Plane.U 200 10 30 :=
  C1_pixel_convert_formula.1 Plane.U (Or.inr (Or.inl rfl)) 200 10 30
    (by decide) (by decide) (by decide)

/-- Counterexample to claim C1 as stated: converting (R,G,B) = (255,0,0)
through the Y row yields 82, not 81. -/
theorem C1_red_Y_ne_81 :
    pixel_convert Plane.Y ⟨0, 0, 255⟩ = 82 ∧ pixel_convert Plane.Y ⟨0, 0, 255⟩ ≠ 81 := by
  constructor
  · decide
  · decide

/-- Claim C3: for every supported tag whose divisibility precondition holds,
calculate_size equals the literal per-family formulas, and 640x480 YU12
gives 460800.  calculate_size is a pure function of (tag, w, h), hence
deterministic. -/
theorem C3_calculate_size_formulas :
    (∀ (S : Supported) (w h : Nat), size_pre S w h →
      calculate_size S w h = required_bytes_spec S w h) ∧
    calculate_size Supported.yuv_YU12 640 480 = 460800 := by
  constructor
  · intro S w h _
    cases S <;>
      simp only [calculate_size, required_bytes_spec, Nat.shiftRight_eq_div_pow,
                 Nat.shiftLeft_eq]
  · decide

/-- Witness for C3_calculate_size_formulas at YUV9, 8x4. -/
theorem C3_calculate_size_formulas_witness :
    calculate_size Supported.yuv_YUV9 8 4 = required_bytes_spec Supported.yuv_YUV9 8 4 :=
  C3_calculate_size_formulas.1 Supported.yuv_YUV9 8 4 (by show (8 * 4) % 16 = 0; decide)

/-- Counterexample to claim C6 as stated: with a failing allocator and a
requested element count of 5 (element size 1), the block after reset holds a
NULL pointer but its element count is 5, not 0. -/
theorem C6_failed_alloc_count_not_zero :
    (sb_reset (fun _ => none) 1 5).block = none ∧
    (sb_reset (fun _ => none) 1 5).count = 5 ∧
    ¬ ((sb_reset (fun _ => none) 1 5).count = 0) := by
  refine ⟨rfl, rfl, by decide⟩

/-- Claim C6 (amended): when allocation fails the block holds a NULL data
pointer and retains the requested element count (the count is 0 exactly when
the requested count was 0, in which case alloc returns NULL by the explicit
size == 0 check); no exception is thrown (the model is a total function). -/
theorem C6_failed_alloc_state (newFn : Nat → Option Nat) (szT cnt : Nat) :
    ((sb_reset newFn szT cnt).block = none → (sb_reset newFn szT cnt).count = cnt) ∧
    (cnt = 0 → (sb_reset newFn szT cnt).block = none ∧ (sb_reset newFn szT cnt).count = 0) := by
  constructor
  · intro _
    rfl
  · intro h
    subst h
    refine ⟨?_, rfl⟩
    simp [sb_reset, r2y_alloc]

/-- Witness for C6_failed_alloc_state with an always-failing allocator. -/
theorem C6_failed_alloc_state_witness :
    (sb_reset (fun _ => none) 1 5).count = 5 ∧ (sb_reset (fun _ => none) 1 0).block = none :=
  ⟨(C6_failed_alloc_state (fun _ => none) 1 5).1 rfl,
   ((C6_failed_alloc_state (fun _ => none) 1 0).2 rfl).1⟩

/-- Counterexample to claim C7 as stated: swapping a scope_block of 2-byte
elements (count 1, byte size 2) with a scope_block of 1-byte elements
(count 3, byte size 3) leaves the first block reporting byte size 2 for the
memory that had byte size 3 in its previous holder. -/
theorem C7_swap_truncates :
    sb_size 2 (sb_swap_cross 2 1 ⟨some 0, 1, true⟩ ⟨some 100, 3, true⟩).1 = 2 ∧
    sb_size 1 (⟨some 100, 3, true⟩ : SB) = 3 ∧ ¬ ((2 : Nat) = 3) := by
  refine ⟨by decide, by decide, by decide⟩

/-- Claim C7 (amended): the cross-type swap recomputes each count as the
incoming byte size divided (with truncation) by the receiving element size,
so the byte size is preserved exactly when the receiving element size
divides the incoming byte size; in general the reported byte size is the
incoming byte size rounded down to a multiple of the element size. -/
theorem C7_swap_size (szT szU : Nat) (a b : SB)
    (hT : szT ∣ sb_size szU b) (hU : szU ∣ sb_size szT a) :
    sb_size szT (sb_swap_cross szT szU a b).1 = sb_size szU b ∧
    sb_size szU (sb_swap_cross szT szU a b).2 = sb_size szT a := by
  constructor
  · simp only [sb_swap_cross, sb_size]
    exact Nat.div_mul_cancel hT
  · simp only [sb_swap_cross, sb_size]
    exact Nat.div_mul_cancel hU

/-- Witness for C7_swap_size: 3-byte elements receiving 6 bytes, 1-byte
elements receiving 4 bytes. -/
theorem C7_swap_size_witness :
    sb_size 3 (sb_swap_cross 3 1 ⟨some 0, 4, true⟩ ⟨some 100, 6, true⟩).1 =
      sb_size 1 (⟨some 100, 6, true⟩ : SB) ∧
    sb_size 1 (sb_swap_cross 3 1 ⟨some 0, 4, true⟩ ⟨some 100, 6, true⟩).2 =
      sb_size 3 (⟨some 0, 4, true⟩ : SB) :=
  C7_swap_size 3 1 ⟨some 0, 4, true⟩ ⟨some 100, 6, true⟩ (by decide) (by decide)

/-- Claim C8: ownership transfer is single-owner and move-only: moving from
an owned block A into a freshly constructed empty block B clears A's
ownership (destroying A frees nothing) and hands it to B (destroying B
frees exactly the transferred address); destroying a borrowed or
already-transferred block is a no-op. -/
theorem C8_move_single_owner (szT szU addr cnt : Nat) :
    sb_dtor_frees (sb_move szT szU sb_empty ⟨some addr, cnt, true⟩).2 = none ∧
    sb_dtor_frees (sb_move szT szU sb_empty ⟨some addr, cnt, true⟩).1 = some addr ∧
    (∀ (a : Option Nat) (n : Nat), sb_dtor_frees ⟨a, n, false⟩ = none) := by
  refine ⟨?_, ?_, ?_⟩
  · simp [sb_move, sb_swap_cross, sb_empty, sb_dtor_frees]
  · simp [sb_move, sb_swap_cross, sb_empty, sb_dtor_frees]
  · intro a n
    simp [sb_dtor_frees]

/-- Claim C5: normalizing canonical 888 RGB is the identity: the returned
block's data pointer is the input pointer, the block is borrowed
(trust_ = false) and no byte of memory is modified; every other RGB source
format rejects source = destination (the assert fails) and, for distinct
addresses, returns an owned block at the freshly allocated address. -/
theorem C5_normalizer_identity_888 :
    (∀ (inAddr otAddr w h : Nat) (mem : Mem),
      rgb_formatter Supported.rgb_888 inAddr otAddr w h mem =
        some (⟨some inAddr, w * h * 3, false⟩, mem)) ∧
    (∀ S : Supported,
      (S = Supported.rgb_565 ∨ S = Supported.rgb_555 ∨
       S = Supported.rgb_444 ∨ S = Supported.rgb_888X) →
      ∀ (inAddr otAddr w h : Nat) (mem : Mem),
        rgb_formatter S inAddr inAddr w h mem = none ∧
        (inAddr ≠ otAddr →
          ∃ mem2, rgb_formatter S inAddr otAddr w h mem =
            some (⟨some otAddr, w * h * 3, true⟩, mem2))) := by
  constructor
  · intro inAddr otAddr w h mem
    rfl
  · intro S hS inAddr otAddr w h mem
    rcases hS with h1 | h1 | h1 | h1 <;> subst h1
    · exact ⟨by simp [rgb_formatter], fun hne =>
        ⟨bmp16_to888 bmp565_pixel inAddr otAddr
          ((calculate_size Supported.rgb_565 w h + 1) / 2) mem,
         by simp [rgb_formatter, hne]⟩⟩
    · exact ⟨by simp [rgb_formatter], fun hne =>
        ⟨bmp16_to888 bmp555_pixel inAddr otAddr
          ((calculate_size Supported.rgb_555 w h + 1) / 2) mem,
         by simp [rgb_formatter, hne]⟩⟩
    · exact ⟨by simp [rgb_formatter], fun hne =>
        ⟨rgb444_to888 inAddr otAddr
          ((calculate_size Supported.rgb_444 w h + 2) / 3) mem,
         by simp [rgb_formatter, hne]⟩⟩
    · exact ⟨by simp [rgb_formatter], fun hne =>
        ⟨rgb888X_to888 inAddr otAddr
          ((calculate_size Supported.rgb_888X w h + 3) / 4) mem,
         by simp [rgb_formatter, hne]⟩⟩

/-- Witness for C5_normalizer_identity_888: rgb_565, source at 0,
destination at 100, 4x2 image, zeroed memory. -/
theorem C5_normalizer_identity_888_witness :
    rgb_formatter Supported.rgb_565 0 0 4 2 (fun _ => 0) = none ∧
    ∃ mem2, rgb_formatter Supported.rgb_565 0 100 4 2 (fun _ => 0) =
      some (⟨some 100, 4 * 2 * 3, true⟩, mem2) :=
  ⟨(C5_normalizer_identity_888.2 Supported.rgb_565 (Or.inl rfl) 0 0 4 2 (fun _ => 0)).1,
   (C5_normalizer_identity_888.2 Supported.rgb_565 (Or.inl rfl) 0 100 4 2 (fun _ => 0)).2
     (by decide)⟩

theorem chroma2_byte (a b : Nat) (ha : a ≤ 255) (hb : b ≤ 255) :
    (((a + b) % 65536) >>> 1) % 256 = (a + b) >>> 1 := by
  have h1 : (a + b) % 65536 = a + b := Nat.mod_eq_of_lt (by omega)
  have h2 : (a + b) >>> 1 = (a + b) / 2 := by
    rw [Nat.shiftRight_eq_div_pow, Nat.pow_one]
  rw [h1, h2]
  omega

theorem mod_shr2_byte (s : Nat) (h : s ≤ 1020) : ((s % 65536) >>> 2) % 256 = s >>> 2 := by
  rw [Nat.mod_eq_of_lt (by omega : s < 65536)]
  have h4 : s >>> 2 = s / 4 := by
    rw [Nat.shiftRight_eq_div_pow]
  rw [h4]
  omega

theorem mod_shr4_byte (s : Nat) (h : s ≤ 4080) : ((s % 65536) >>> 4) % 256 = s >>> 4 := by
  rw [Nat.mod_eq_of_lt (by omega : s < 65536)]
  have h16 : s >>> 4 = s / 16 := by
    rw [Nat.shiftRight_eq_div_pow]
  rw [h16]
  omega

theorem transform_packed422_eq (tag : Packed422) : (ps : List Rgb) →
    transform_packed422 tag ps =
      ((pairs ps).map (fun q => packed422_group_claim tag q.1 q.2)).flatten
  | p0 :: p1 :: rest => by
      have ih := transform_packed422_eq tag rest
      have hu := chroma2_byte (pixel_convert Plane.U p0) (pixel_convert Plane.U p1)
        (pixel_convert_le_255 _ _) (pixel_convert_le_255 _ _)
      have hv := chroma2_byte (pixel_convert Plane.V p0) (pixel_convert Plane.V p1)
        (pixel_convert_le_255 _ _) (pixel_convert_le_255 _ _)
      cases tag <;>
        simp [transform_packed422, pairs, packed422_bytes, packed422_group_claim,
              sum2, ih, hu, hv]
  | [] => rfl
  | [p] => rfl

theorem transform_422P_uvs : (ps : List Rgb) →
    (transform_422P ps).2 = (pairs ps).map chroma422_claim
  | p0 :: p1 :: rest => by
      have ih := transform_422P_uvs rest
      have hu := chroma2_byte (pixel_convert Plane.U p0) (pixel_convert Plane.U p1)
        (pixel_convert_le_255 _ _) (pixel_convert_le_255 _ _)
      have hv := chroma2_byte (pixel_convert Plane.V p0) (pixel_convert Plane.V p1)
        (pixel_convert_le_255 _ _) (pixel_convert_le_255 _ _)
      simp [transform_422P, pairs, chroma422_claim, sum2, ih, hu, hv]
  | [] => rfl
  | [p] => rfl

theorem transform_411P_uvs : (ps : List Rgb) →
    (transform_411P ps).2 = (quads ps).map chroma411_claim
  | p0 :: p1 :: p2 :: p3 :: rest => by
      have ih := transform_411P_uvs rest
      have hb0 := pixel_convert_le_255 Plane.U p0
      have hb1 := pixel_convert_le_255 Plane.U p1
      have hb2 := pixel_convert_le_255 Plane.U p2
      have hb3 := pixel_convert_le_255 Plane.U p3
      have hc0 := pixel_convert_le_255 Plane.V p0
      have hc1 := pixel_convert_le_255 Plane.V p1
      have hc2 := pixel_convert_le_255 Plane.V p2
      have hc3 := pixel_convert_le_255 Plane.V p3
      have hu := mod_shr2_byte (pixel_convert Plane.U p0 + pixel_convert Plane.U p1 +
        pixel_convert Plane.U p2 + pixel_convert Plane.U p3) (by omega)
      have hv := mod_shr2_byte (pixel_convert Plane.V p0 + pixel_convert Plane.V p1 +
        pixel_convert Plane.V p2 + pixel_convert Plane.V p3) (by omega)
      simp [transform_411P, quads, chroma411_claim, sum4, ih, hu, hv]
  | [] => rfl
  | [p] => rfl
  | [p, q] => rfl
  | [p, q, s] => rfl

theorem transform_Y41P_eq : (ps : List Rgb) → transform_Y41P ps = y41p_claim ps
  | p0 :: p1 :: p2 :: p3 :: p4 :: p5 :: p6 :: p7 :: rest => by
      have ih := transform_Y41P_eq rest
      have hb0 := pixel_convert_le_255 Plane.U p0
      have hb1 := pixel_convert_le_255 Plane.U p1
      have hb2 := pixel_convert_le_255 Plane.U p2
      have hb3 := pixel_convert_le_255 Plane.U p3
      have hb4 := pixel_convert_le_255 Plane.U p4
      have hb5 := pixel_convert_le_255 Plane.U p5
      have hb6 := pixel_convert_le_255 Plane.U p6
      have hb7 := pixel_convert_le_255 Plane.U p7
      have hc0 := pixel_convert_le_255 Plane.V p0
      have hc1 := pixel_convert_le_255 Plane.V p1
      have hc2 := pixel_convert_le_255 Plane.V p2
      have hc3 := pixel_convert_le_255 Plane.V p3
      have hc4 := pixel_convert_le_255 Plane.V p4
      have hc5 := pixel_convert_le_255 Plane.V p5
      have hc6 := pixel_convert_le_255 Plane.V p6
      have hc7 := pixel_convert_le_255 Plane.V p7
      have hu0 := mod_shr2_byte (pixel_convert Plane.U p0 + pixel_convert Plane.U p1 +
        pixel_convert Plane.U p2 + pixel_convert Plane.U p3) (by omega)
      have hv0 := mod_shr2_byte (pixel_convert Plane.V p0 + pixel_convert Plane.V p1 +
        pixel_convert Plane.V p2 + pixel_convert Plane.V p3) (by omega)
      have hu1 := mod_shr2_byte (pixel_convert Plane.U p4 + pixel_convert Plane.U p5 +
        pixel_convert Plane.U p6 + pixel_convert Plane.U p7) (by omega)
      have hv1 := mod_shr2_byte (pixel_convert Plane.V p4 + pixel_convert Plane.V p5 +
        pixel_convert Plane.V p6 + pixel_convert Plane.V p7) (by omega)
      simp [transform_Y41P, y41p_claim, sum4, ih, hu0, hv0, hu1, hv1]
  | [] => rfl
  | [p] => rfl
  | [p, q] => rfl
  | [p, q, s] => rfl
  | [p, q, s, u] => rfl
  | [p, q, s, u, a] => rfl
  | [p, q, s, u, a, e] => rfl
  | [p, q, s, u, a, e, f] => rfl

/-- Claim C4: for every 4:2:2 packed target and every input of even pixel
count, the writer emits one 4-byte group per consecutive pixel pair: the Y
bytes are the direct per-pixel conversions, the shared chroma bytes are
(U0+U1)>>1 and (V0+V1)>>1, and the byte order within the group is the
tag's fixed order (YUY2: Y,U,Y,V; YVYU: Y,V,Y,U; UYVY: U,Y,V,Y;
VYUY: V,Y,U,Y). -/
theorem C4_packed422_groups (tag : Packed422) (ps : List Rgb)
    (_h : ps.length % 2 = 0) :
    transform_packed422 tag ps =
      ((pairs ps).map (fun q => packed422_group_claim tag q.1 q.2)).flatten :=
  transform_packed422_eq tag ps

/-- Witness for C4_packed422_groups on a 2x1 image, tag YUY2, pixels
(R,G,B) = (255,0,0) and (0,255,0). -/
theorem C4_packed422_groups_witness :
    transform_packed422 Packed422.YUY2 [⟨0, 0, 255⟩, ⟨0, 255, 0⟩] =
      ((pairs [(⟨0, 0, 255⟩ : Rgb), ⟨0, 255, 0⟩]).map
        (fun q => packed422_group_claim Packed422.YUY2 q.1 q.2)).flatten :=
  C4_packed422_groups Packed422.YUY2 [⟨0, 0, 255⟩, ⟨0, 255, 0⟩] (by decide)

theorem upd_same (f : Nat → Nat) (i v : Nat) : upd f i v i = v := by
  simp [upd]

theorem upd_ne (f : Nat → Nat) (i v k : Nat) (h : k ≠ i) : upd f i v k = f k := by
  simp [upd, h]

theorem mod_add_add_mod (a c d : Nat) :
    ((a % 65536) + c + d) % 65536 = (a + c + d) % 65536 := by
  omega

theorem row420_assign_go (r : Nat → Rgb) (m : Nat) (st : AccSt) :
    (List.range (2 * m)).foldl (fun p j => (step420 false p.2 r j p.1, !p.2)) (st, false) =
    ({ accU := fun k => if k < m then
          (pixel_convert Plane.U (r (2 * k)) + pixel_convert Plane.U (r (2 * k + 1))) % 65536
        else st.accU k,
       accV := fun k => if k < m then
          (pixel_convert Plane.V (r (2 * k)) + pixel_convert Plane.V (r (2 * k + 1))) % 65536
        else st.accV k,
       ys := st.ys ++ (List.range (2 * m)).map (fun j => pixel_convert Plane.Y (r j)),
       uvs := st.uvs }, false) := by
  induction m with
  | zero => simp
  | succ n ih =>
      rw [show 2 * (n + 1) = 2 * n + 1 + 1 by ring, List.range_succ, List.foldl_append,
          List.range_succ, List.foldl_append, ih]
      simp only [List.foldl_cons, List.foldl_nil, Bool.not_false, Bool.not_true, step420]
      have e1 : 2 * n / 2 = n := by omega
      have e2 : (2 * n + 1) / 2 = n := by omega
      rw [e1, e2]
      refine Prod.ext ?_ rfl
      refine AccSt.ext ?_ ?_ ?_ ?_
      · funext k
        by_cases hk : k = n
        · subst hk
          simp [upd, Nat.lt_succ_self]
        · by_cases hk2 : k < n
          · simp [upd, hk, hk2, show k < n + 1 by omega]
          · simp [upd, hk, hk2, show ¬ k < n + 1 by omega]
      · funext k
        by_cases hk : k = n
        · subst hk
          simp [upd, Nat.lt_succ_self]
        · by_cases hk2 : k < n
          · simp [upd, hk, hk2, show k < n + 1 by omega]
          · simp [upd, hk, hk2, show ¬ k < n + 1 by omega]
      · simp [List.range_succ, List.append_assoc]
      · rfl

theorem row420_emit_go (r : Nat → Rgb) (m : Nat) (st : AccSt) :
    (List.range (2 * m)).foldl (fun p j => (step420 true p.2 r j p.1, !p.2)) (st, false) =
    ({ accU := fun k => if k < m then
          (st.accU k + pixel_convert Plane.U (r (2 * k)) + pixel_convert Plane.U (r (2 * k + 1))) % 65536
        else st.accU k,
       accV := fun k => if k < m then
          (st.accV k + pixel_convert Plane.V (r (2 * k)) + pixel_convert Plane.V (r (2 * k + 1))) % 65536
        else st.accV k,
       ys := st.ys ++ (List.range (2 * m)).map (fun j => pixel_convert Plane.Y (r j)),
       uvs := st.uvs ++ (List.range m).map (fun k =>
         ((((st.accU k + pixel_convert Plane.U (r (2 * k)) + pixel_convert Plane.U (r (2 * k + 1))) % 65536) >>> 2) % 256,
          (((st.accV k + pixel_convert Plane.V (r (2 * k)) + pixel_convert Plane.V (r (2 * k + 1))) % 65536) >>> 2) % 256)) }, false) := by
  induction m with
  | zero => simp
  | succ n ih =>
      rw [show 2 * (n + 1) = 2 * n + 1 + 1 by ring, List.range_succ, List.foldl_append,
          List.range_succ, List.foldl_append, ih]
      simp only [List.foldl_cons, List.foldl_nil, Bool.not_false, Bool.not_true, step420]
      have e1 : 2 * n / 2 = n := by omega
      have e2 : (2 * n + 1) / 2 = n := by omega
      rw [e1, e2]
      refine Prod.ext ?_ rfl
      refine AccSt.ext ?_ ?_ ?_ ?_
      · funext k
        by_cases hk : k = n
        · subst hk
          simp [upd, Nat.lt_succ_self, upd_ne, Nat.mod_add_mod]
        · by_cases hk2 : k < n
          · simp [upd, hk, hk2, show k < n + 1 by omega]
          · simp [upd, hk, hk2, show ¬ k < n + 1 by omega]
      · funext k
        by_cases hk : k = n
        · subst hk
          simp [upd, Nat.lt_succ_self, upd_ne, Nat.mod_add_mod]
        · by_cases hk2 : k < n
          · simp [upd, hk, hk2, show k < n + 1 by omega]
          · simp [upd, hk, hk2, show ¬ k < n + 1 by omega]
      · simp [List.range_succ, List.append_assoc]
      · simp [upd, List.range_succ, Nat.lt_irrefl, Nat.mod_add_mod, List.append_assoc]

theorem row420_assign (r : Nat → Rgb) (m : Nat) (st : AccSt) :
    row420 false r (2 * m) st =
    { accU := fun k => if k < m then
          (pixel_convert Plane.U (r (2 * k)) + pixel_convert Plane.U (r (2 * k + 1))) % 65536
        else st.accU k,
      accV := fun k => if k < m then
          (pixel_convert Plane.V (r (2 * k)) + pixel_convert Plane.V (r (2 * k + 1))) % 65536
        else st.accV k,
      ys := st.ys ++ (List.range (2 * m)).map (fun j => pixel_convert Plane.Y (r j)),
      uvs := st.uvs } := by
  unfold row420
  rw [row420_assign_go]

theorem row420_emit (r : Nat → Rgb) (m : Nat) (st : AccSt) :
    row420 true r (2 * m) st =
    { accU := fun k => if k < m then
          (st.accU k + pixel_convert Plane.U (r (2 * k)) + pixel_convert Plane.U (r (2 * k + 1))) % 65536
        else st.accU k,
      accV := fun k => if k < m then
          (st.accV k + pixel_convert Plane.V (r (2 * k)) + pixel_convert Plane.V (r (2 * k + 1))) % 65536
        else st.accV k,
      ys := st.ys ++ (List.range (2 * m)).map (fun j => pixel_convert Plane.Y (r j)),
      uvs := st.uvs ++ (List.range m).map (fun k =>
        ((((st.accU k + pixel_convert Plane.U (r (2 * k)) + pixel_convert Plane.U (r (2 * k + 1))) % 65536) >>> 2) % 256,
         (((st.accV k + pixel_convert Plane.V (r (2 * k)) + pixel_convert Plane.V (r (2 * k + 1))) % 65536) >>> 2) % 256)) } := by
  unfold row420
  rw [row420_emit_go]

theorem transform420_go (px : Nat → Nat → Rgb) (n t : Nat) : ∀ st : AccSt,
    (((List.range (2 * t)).foldl (fun p i => (row420 p.2 (px i) (2 * n) p.1, !p.2))
        (st, false)).1.ys =
       st.ys ++ ((List.range (2 * t)).map (fun i =>
         (List.range (2 * n)).map (fun j => pixel_convert Plane.Y (px i j)))).flatten) ∧
    (((List.range (2 * t)).foldl (fun p i => (row420 p.2 (px i) (2 * n) p.1, !p.2))
        (st, false)).1.uvs =
       st.uvs ++ ((List.range t).map (fun bi => (List.range n).map (fun bj =>
         (blockSum420 Plane.U px bi bj >>> 2, blockSum420 Plane.V px bi bj >>> 2)))).flatten) ∧
    (((List.range (2 * t)).foldl (fun p i => (row420 p.2 (px i) (2 * n) p.1, !p.2))
        (st, false)).2 = false) := by
  induction t with
  | zero =>
      intro st
      refine ⟨by simp, by simp, by simp⟩
  | succ tt ih =>
      intro st
      obtain ⟨hys, huvs, hflag⟩ := ih st
      rw [show 2 * (tt + 1) = 2 * tt + 1 + 1 by ring, List.range_succ, List.foldl_append,
          List.range_succ, List.foldl_append]
      set P := (List.range (2 * tt)).foldl
        (fun p i => (row420 p.2 (px i) (2 * n) p.1, !p.2)) (st, false) with hP
      have hPeta : P = (P.1, false) := Prod.ext rfl hflag
      rw [hPeta]
      simp only [List.foldl_cons, List.foldl_nil, Bool.not_false, Bool.not_true]
      rw [row420_assign, row420_emit]
      refine ⟨?_, ?_, by trivial⟩
      · simp only [hys, List.range_succ, List.map_append, List.flatten_append,
                   List.map_cons, List.map_nil, List.flatten_cons, List.flatten_nil,
                   List.append_assoc, List.append_nil]
      · simp only [huvs, List.range_succ, List.map_append, List.flatten_append,
                   List.map_cons, List.map_nil, List.flatten_cons, List.flatten_nil,
                   List.append_assoc, List.append_nil]
        congr 2
        apply List.map_congr_left
        intro k hk
        have hkn : k < n := List.mem_range.mp hk
        have hu0 := pixel_convert_le_255 Plane.U (px (2 * tt) (2 * k))
        have hu1 := pixel_convert_le_255 Plane.U (px (2 * tt) (2 * k + 1))
        have hu2 := pixel_convert_le_255 Plane.U (px (2 * tt + 1) (2 * k))
        have hu3 := pixel_convert_le_255 Plane.U (px (2 * tt + 1) (2 * k + 1))
        have hv0 := pixel_convert_le_255 Plane.V (px (2 * tt) (2 * k))
        have hv1 := pixel_convert_le_255 Plane.V (px (2 * tt) (2 * k + 1))
        have hv2 := pixel_convert_le_255 Plane.V (px (2 * tt + 1) (2 * k))
        have hv3 := pixel_convert_le_255 Plane.V (px (2 * tt + 1) (2 * k + 1))
        rw [if_pos hkn, if_pos hkn, mod_add_add_mod, mod_add_add_mod,
            mod_shr2_byte _ (by unfold blockSum420 sum4 at *; omega),
            mod_shr2_byte _ (by unfold blockSum420 sum4 at *; omega)]
        rfl

theorem transform420_spec (px : Nat → Nat → Rgb) (n t : Nat) (aU aV : Nat → Nat) :
    (transform420 px (2 * n) (2 * t) ⟨aU, aV, [], []⟩).ys = yPlane px (2 * n) (2 * t) ∧
    (transform420 px (2 * n) (2 * t) ⟨aU, aV, [], []⟩).uvs = chroma420_claim px n t := by
  obtain ⟨hys, huvs, _⟩ := transform420_go px n t ⟨aU, aV, [], []⟩
  unfold transform420
  rw [hys, huvs]
  constructor
  · simp [yPlane]
  · simp [chroma420_claim]

theorem rowSum4_le (P : Plane) (row : Nat → Rgb) (bj : Nat) : rowSum4 P row bj ≤ 1020 := by
  unfold rowSum4
  have h0 := pixel_convert_le_255 P (row (4 * bj))
  have h1 := pixel_convert_le_255 P (row (4 * bj + 1))
  have h2 := pixel_convert_le_255 P (row (4 * bj + 2))
  have h3 := pixel_convert_le_255 P (row (4 * bj + 3))
  omega

theorem blockSum410_le (P : Plane) (px : Nat → Nat → Rgb) (bi bj : Nat) :
    blockSum410 P px bi bj ≤ 4080 := by
  unfold blockSum410
  have h0 := rowSum4_le P (px (4 * bi)) bj
  have h1 := rowSum4_le P (px (4 * bi + 1)) bj
  have h2 := rowSum4_le P (px (4 * bi + 2)) bj
  have h3 := rowSum4_le P (px (4 * bi + 3)) bj
  omega

theorem step410_11 (r : Nat → Rgb) (j : Nat) (st : AccSt) :
    step410 1 1 r j st =
    { st with
      ys := st.ys ++ [pixel_convert Plane.Y (r j)],
      accU := upd st.accU (j / 4) (pixel_convert Plane.U (r j)),
      accV := upd st.accV (j / 4) (pixel_convert Plane.V (r j)) } := rfl

theorem step410_1w (w : Nat) (hw : w ≠ 1) (r : Nat → Rgb) (j : Nat) (st : AccSt) :
    step410 1 w r j st = acc410 r j st := by
  unfold step410
  rw [if_pos rfl, if_neg hw]

theorem step410_gen (hf : Nat) (hf1 : hf ≠ 1) (hf4 : hf ≠ 4) (w : Nat) (r : Nat → Rgb)
    (j : Nat) (st : AccSt) :
    step410 hf w r j st = acc410 r j st := by
  unfold step410
  rw [if_neg hf1, if_neg hf4]

theorem step410_44 (r : Nat → Rgb) (j : Nat) (st : AccSt) :
    step410 4 4 r j st =
    { st with
      ys := st.ys ++ [pixel_convert Plane.Y (r j)],
      accU := upd st.accU (j / 4) ((st.accU (j / 4) + pixel_convert Plane.U (r j)) % 65536),
      accV := upd st.accV (j / 4) ((st.accV (j / 4) + pixel_convert Plane.V (r j)) % 65536),
      uvs := st.uvs ++
        [((((st.accU (j / 4) + pixel_convert Plane.U (r j)) % 65536) >>> 4) % 256,
          (((st.accV (j / 4) + pixel_convert Plane.V (r j)) % 65536) >>> 4) % 256)] } := rfl

theorem step410_4w (w : Nat) (hw : w ≠ 4) (r : Nat → Rgb) (j : Nat) (st : AccSt) :
    step410 4 w r j st = acc410 r j st := by
  unfold step410
  rw [if_neg (by omega : (4 : Nat) ≠ 1), if_pos rfl, if_neg hw]

theorem row410_assign_go (r : Nat → Rgb) (m : Nat) (st : AccSt) :
    (List.range (4 * m)).foldl
      (fun p j => (step410 1 p.2 r j p.1, (if p.2 = 4 then 0 else p.2) + 1)) (st, 1) =
    ({ accU := fun k => if k < m then
         (pixel_convert Plane.U (r (4 * k)) + pixel_convert Plane.U (r (4 * k + 1)) +
          pixel_convert Plane.U (r (4 * k + 2)) + pixel_convert Plane.U (r (4 * k + 3))) % 65536
        else st.accU k,
       accV := fun k => if k < m then
         (pixel_convert Plane.V (r (4 * k)) + pixel_convert Plane.V (r (4 * k + 1)) +
          pixel_convert Plane.V (r (4 * k + 2)) + pixel_convert Plane.V (r (4 * k + 3))) % 65536
        else st.accV k,
       ys := st.ys ++ (List.range (4 * m)).map (fun j => pixel_convert Plane.Y (r j)),
       uvs := st.uvs }, 1) := by
  induction m with
  | zero => simp
  | succ n ih =>
      rw [show 4 * (n + 1) = 4 * n + 1 + 1 + 1 + 1 by ring,
          List.range_succ, List.foldl_append, List.range_succ, List.foldl_append,
          List.range_succ, List.foldl_append, List.range_succ, List.foldl_append, ih]
      simp only [List.foldl_cons, List.foldl_nil]
      simp only [show ((if (1 : Nat) = 4 then 0 else 1) + 1) = 2 by norm_num,
                 show ((if (2 : Nat) = 4 then 0 else 2) + 1) = 3 by norm_num,
                 show ((if (3 : Nat) = 4 then 0 else 3) + 1) = 4 by norm_num,
                 show ((if (4 : Nat) = 4 then 0 else 4) + 1) = 1 by norm_num]
      simp only [step410_11, step410_1w 2 (by omega), step410_1w 3 (by omega),
                 step410_1w 4 (by omega), acc410]
      have e0 : 4 * n / 4 = n := by omega
      have e1 : (4 * n + 1) / 4 = n := by omega
      have e2 : (4 * n + 2) / 4 = n := by omega
      have e3 : (4 * n + 3) / 4 = n := by omega
      simp only [e0, e1, e2, e3]
      refine Prod.ext ?_ rfl
      refine AccSt.ext ?_ ?_ ?_ ?_
      · funext k
        by_cases hk : k = n
        · subst hk
          simp [upd, Nat.lt_succ_self, Nat.mod_add_mod]
        · by_cases hk2 : k < n
          · simp [upd, hk, hk2, show k < n + 1 by omega]
          · simp [upd, hk, hk2, show ¬ k < n + 1 by omega]
      · funext k
        by_cases hk : k = n
        · subst hk
          simp [upd, Nat.lt_succ_self, Nat.mod_add_mod]
        · by_cases hk2 : k < n
          · simp [upd, hk, hk2, show k < n + 1 by omega]
          · simp [upd, hk, hk2, show ¬ k < n + 1 by omega]
      · simp [List.range_succ, List.append_assoc]
      · rfl

theorem row410_acc_go (hf : Nat) (hf1 : hf ≠ 1) (hf4 : hf ≠ 4) (r : Nat → Rgb) (m : Nat)
    (st : AccSt) :
    (List.range (4 * m)).foldl
      (fun p j => (step410 hf p.2 r j p.1, (if p.2 = 4 then 0 else p.2) + 1)) (st, 1) =
    ({ accU := fun k => if k < m then
         (st.accU k + pixel_convert Plane.U (r (4 * k)) + pixel_convert Plane.U (r (4 * k + 1)) +
          pixel_convert Plane.U (r (4 * k + 2)) + pixel_convert Plane.U (r (4 * k + 3))) % 65536
        else st.accU k,
       accV := fun k => if k < m then
         (st.accV k + pixel_convert Plane.V (r (4 * k)) + pixel_convert Plane.V (r (4 * k + 1)) +
          pixel_convert Plane.V (r (4 * k + 2)) + pixel_convert Plane.V (r (4 * k + 3))) % 65536
        else st.accV k,
       ys := st.ys ++ (List.range (4 * m)).map (fun j => pixel_convert Plane.Y (r j)),
       uvs := st.uvs }, 1) := by
  induction m with
  | zero => simp
  | succ n ih =>
      rw [show 4 * (n + 1) = 4 * n + 1 + 1 + 1 + 1 by ring,
          List.range_succ, List.foldl_append, List.range_succ, List.foldl_append,
          List.range_succ, List.foldl_append, List.range_succ, List.foldl_append, ih]
      simp only [List.foldl_cons, List.foldl_nil]
      simp only [show ((if (1 : Nat) = 4 then 0 else 1) + 1) = 2 by norm_num,
                 show ((if (2 : Nat) = 4 then 0 else 2) + 1) = 3 by norm_num,
                 show ((if (3 : Nat) = 4 then 0 else 3) + 1) = 4 by norm_num,
                 show ((if (4 : Nat) = 4 then 0 else 4) + 1) = 1 by norm_num]
      simp only [step410_gen hf hf1 hf4, acc410]
      have e0 : 4 * n / 4 = n := by omega
      have e1 : (4 * n + 1) / 4 = n := by omega
      have e2 : (4 * n + 2) / 4 = n := by omega
      have e3 : (4 * n + 3) / 4 = n := by omega
      simp only [e0, e1, e2, e3]
      refine Prod.ext ?_ rfl
      refine AccSt.ext ?_ ?_ ?_ ?_
      · funext k
        by_cases hk : k = n
        · subst hk
          simp [upd, Nat.lt_succ_self, Nat.lt_irrefl, Nat.mod_add_mod]
        · by_cases hk2 : k < n
          · simp [upd, hk, hk2, show k < n + 1 by omega]
          · simp [upd, hk, hk2, show ¬ k < n + 1 by omega]
      · funext k
        by_cases hk : k = n
        · subst hk
          simp [upd, Nat.lt_succ_self, Nat.lt_irrefl, Nat.mod_add_mod]
        · by_cases hk2 : k < n
          · simp [upd, hk, hk2, show k < n + 1 by omega]
          · simp [upd, hk, hk2, show ¬ k < n + 1 by omega]
      · simp [List.range_succ, List.append_assoc]
      · rfl

theorem row410_emit_go (r : Nat → Rgb) (m : Nat) (st : AccSt) :
    (List.range (4 * m)).foldl
      (fun p j => (step410 4 p.2 r j p.1, (if p.2 = 4 then 0 else p.2) + 1)) (st, 1) =
    ({ accU := fun k => if k < m then
         (st.accU k + pixel_convert Plane.U (r (4 * k)) + pixel_convert Plane.U (r (4 * k + 1)) +
          pixel_convert Plane.U (r (4 * k + 2)) + pixel_convert Plane.U (r (4 * k + 3))) % 65536
        else st.accU k,
       accV := fun k => if k < m then
         (st.accV k + pixel_convert Plane.V (r (4 * k)) + pixel_convert Plane.V (r (4 * k + 1)) +
          pixel_convert Plane.V (r (4 * k + 2)) + pixel_convert Plane.V (r (4 * k + 3))) % 65536
        else st.accV k,
       ys := st.ys ++ (List.range (4 * m)).map (fun j => pixel_convert Plane.Y (r j)),
       uvs := st.uvs ++ (List.range m).map (fun k =>
         ((((st.accU k + pixel_convert Plane.U (r (4 * k)) + pixel_convert Plane.U (r (4 * k + 1)) +
             pixel_convert Plane.U (r (4 * k + 2)) + pixel_convert Plane.U (r (4 * k + 3))) % 65536) >>> 4) % 256,
          (((st.accV k + pixel_convert Plane.V (r (4 * k)) + pixel_convert Plane.V (r (4 * k + 1)) +
             pixel_convert Plane.V (r (4 * k + 2)) + pixel_convert Plane.V (r (4 * k + 3))) % 65536) >>> 4) % 256)) },
     1) := by
  induction m with
  | zero => simp
  | succ n ih =>
      rw [show 4 * (n + 1) = 4 * n + 1 + 1 + 1 + 1 by ring,
          List.range_succ, List.foldl_append, List.range_succ, List.foldl_append,
          List.range_succ, List.foldl_append, List.range_succ, List.foldl_append, ih]
      simp only [List.foldl_cons, List.foldl_nil]
      simp only [show ((if (1 : Nat) = 4 then 0 else 1) + 1) = 2 by norm_num,
                 show ((if (2 : Nat) = 4 then 0 else 2) + 1) = 3 by norm_num,
                 show ((if (3 : Nat) = 4 then 0 else 3) + 1) = 4 by norm_num,
                 show ((if (4 : Nat) = 4 then 0 else 4) + 1) = 1 by norm_num]
      simp only [step410_44, step410_4w 1 (by omega), step410_4w 2 (by omega),
                 step410_4w 3 (by omega), acc410]
      have e0 : 4 * n / 4 = n := by omega
      have e1 : (4 * n + 1) / 4 = n := by omega
      have e2 : (4 * n + 2) / 4 = n := by omega
      have e3 : (4 * n + 3) / 4 = n := by omega
      simp only [e0, e1, e2, e3]
      refine Prod.ext ?_ rfl
      refine AccSt.ext ?_ ?_ ?_ ?_
      · funext k
        by_cases hk : k = n
        · subst hk
          simp [upd, Nat.lt_succ_self, Nat.lt_irrefl, Nat.mod_add_mod]
        · by_cases hk2 : k < n
          · simp [upd, hk, hk2, show k < n + 1 by omega]
          · simp [upd, hk, hk2, show ¬ k < n + 1 by omega]
      · funext k
        by_cases hk : k = n
        · subst hk
          simp [upd, Nat.lt_succ_self, Nat.lt_irrefl, Nat.mod_add_mod]
        · by_cases hk2 : k < n
          · simp [upd, hk, hk2, show k < n + 1 by omega]
          · simp [upd, hk, hk2, show ¬ k < n + 1 by omega]
      · simp [List.range_succ, List.append_assoc]
      · simp [upd, List.range_succ, Nat.lt_irrefl, Nat.mod_add_mod, List.append_assoc]

theorem row410_assign (r : Nat → Rgb) (m : Nat) (st : AccSt) :
    row410 1 r (4 * m) st =
    { accU := fun k => if k < m then
        (pixel_convert Plane.U (r (4 * k)) + pixel_convert Plane.U (r (4 * k + 1)) +
         pixel_convert Plane.U (r (4 * k + 2)) + pixel_convert Plane.U (r (4 * k + 3))) % 65536
       else st.accU k,
      accV := fun k => if k < m then
        (pixel_convert Plane.V (r (4 * k)) + pixel_convert Plane.V (r (4 * k + 1)) +
         pixel_convert Plane.V (r (4 * k + 2)) + pixel_convert Plane.V (r (4 * k + 3))) % 65536
       else st.accV k,
      ys := st.ys ++ (List.range (4 * m)).map (fun j => pixel_convert Plane.Y (r j)),
      uvs := st.uvs } := by
  unfold row410
  rw [row410_assign_go]

theorem row410_acc (hf : Nat) (hf1 : hf ≠ 1) (hf4 : hf ≠ 4) (r : Nat → Rgb) (m : Nat)
    (st : AccSt) :
    row410 hf r (4 * m) st =
    { accU := fun k => if k < m then
        (st.accU k + pixel_convert Plane.U (r (4 * k)) + pixel_convert Plane.U (r (4 * k + 1)) +
         pixel_convert Plane.U (r (4 * k + 2)) + pixel_convert Plane.U (r (4 * k + 3))) % 65536
       else st.accU k,
      accV := fun k => if k < m then
        (st.accV k + pixel_convert Plane.V (r (4 * k)) + pixel_convert Plane.V (r (4 * k + 1)) +
         pixel_convert Plane.V (r (4 * k + 2)) + pixel_convert Plane.V (r (4 * k + 3))) % 65536
       else st.accV k,
      ys := st.ys ++ (List.range (4 * m)).map (fun j => pixel_convert Plane.Y (r j)),
      uvs := st.uvs } := by
  unfold row410
  rw [row410_acc_go hf hf1 hf4]

theorem row410_emit (r : Nat → Rgb) (m : Nat) (st : AccSt) :
    row410 4 r (4 * m) st =
    { accU := fun k => if k < m then
        (st.accU k + pixel_convert Plane.U (r (4 * k)) + pixel_convert Plane.U (r (4 * k + 1)) +
         pixel_convert Plane.U (r (4 * k + 2)) + pixel_convert Plane.U (r (4 * k + 3))) % 65536
       else st.accU k,
      accV := fun k => if k < m then
        (st.accV k + pixel_convert Plane.V (r (4 * k)) + pixel_convert Plane.V (r (4 * k + 1)) +
         pixel_convert Plane.V (r (4 * k + 2)) + pixel_convert Plane.V (r (4 * k + 3))) % 65536
       else st.accV k,
      ys := st.ys ++ (List.range (4 * m)).map (fun j => pixel_convert Plane.Y (r j)),
      uvs := st.uvs ++ (List.range m).map (fun k =>
        ((((st.accU k + pixel_convert Plane.U (r (4 * k)) + pixel_convert Plane.U (r (4 * k + 1)) +
            pixel_convert Plane.U (r (4 * k + 2)) + pixel_convert Plane.U (r (4 * k + 3))) % 65536) >>> 4) % 256,
         (((st.accV k + pixel_convert Plane.V (r (4 * k)) + pixel_convert Plane.V (r (4 * k + 1)) +
            pixel_convert Plane.V (r (4 * k + 2)) + pixel_convert Plane.V (r (4 * k + 3))) % 65536) >>> 4) % 256)) } := by
  unfold row410
  rw [row410_emit_go]

theorem chroma16_byte (a1 a2 a3 a4 b1 b2 b3 b4 c1 c2 c3 c4 d1 d2 d3 d4 : Nat)
    (ha : a1 ≤ 255 ∧ a2 ≤ 255 ∧ a3 ≤ 255 ∧ a4 ≤ 255)
    (hb : b1 ≤ 255 ∧ b2 ≤ 255 ∧ b3 ≤ 255 ∧ b4 ≤ 255)
    (hc : c1 ≤ 255 ∧ c2 ≤ 255 ∧ c3 ≤ 255 ∧ c4 ≤ 255)
    (hd : d1 ≤ 255 ∧ d2 ≤ 255 ∧ d3 ≤ 255 ∧ d4 ≤ 255) :
    (((((((a1 + a2 + a3 + a4) % 65536 + b1 + b2 + b3 + b4) % 65536 +
        c1 + c2 + c3 + c4) % 65536 + d1 + d2 + d3 + d4) % 65536) >>> 4) % 256) =
    ((a1 + a2 + a3 + a4) + (b1 + b2 + b3 + b4) + (c1 + c2 + c3 + c4) +
     (d1 + d2 + d3 + d4)) >>> 4 := by
  obtain ⟨ha1, ha2, ha3, ha4⟩ := ha
  obtain ⟨hb1, hb2, hb3, hb4⟩ := hb
  obtain ⟨hc1, hc2, hc3, hc4⟩ := hc
  obtain ⟨hd1, hd2, hd3, hd4⟩ := hd
  have hcollapse : ((((a1 + a2 + a3 + a4) % 65536 + b1 + b2 + b3 + b4) % 65536 +
      c1 + c2 + c3 + c4) % 65536 + d1 + d2 + d3 + d4) % 65536 =
      ((a1 + a2 + a3 + a4) + (b1 + b2 + b3 + b4) + (c1 + c2 + c3 + c4) +
       (d1 + d2 + d3 + d4)) % 65536 := by
    omega
  rw [hcollapse, mod_shr4_byte _ (by omega)]

theorem transform410_go (px : Nat → Nat → Rgb) (n t : Nat) : ∀ st : AccSt,
    (((List.range (4 * t)).foldl
        (fun p i => (row410 p.2 (px i) (4 * n) p.1, (if p.2 = 4 then 0 else p.2) + 1))
        (st, 1)).1.ys =
       st.ys ++ ((List.range (4 * t)).map (fun i =>
         (List.range (4 * n)).map (fun j => pixel_convert Plane.Y (px i j)))).flatten) ∧
    (((List.range (4 * t)).foldl
        (fun p i => (row410 p.2 (px i) (4 * n) p.1, (if p.2 = 4 then 0 else p.2) + 1))
        (st, 1)).1.uvs =
       st.uvs ++ ((List.range t).map (fun bi => (List.range n).map (fun bj =>
         (blockSum410 Plane.U px bi bj >>> 4, blockSum410 Plane.V px bi bj >>> 4)))).flatten) ∧
    (((List.range (4 * t)).foldl
        (fun p i => (row410 p.2 (px i) (4 * n) p.1, (if p.2 = 4 then 0 else p.2) + 1))
        (st, 1)).2 = 1) := by
  induction t with
  | zero =>
      intro st
      refine ⟨by simp, by simp, by simp⟩
  | succ tt ih =>
      intro st
      obtain ⟨hys, huvs, hflag⟩ := ih st
      rw [show 4 * (tt + 1) = 4 * tt + 1 + 1 + 1 + 1 by ring,
          List.range_succ, List.foldl_append, List.range_succ, List.foldl_append,
          List.range_succ, List.foldl_append, List.range_succ, List.foldl_append]
      set P := (List.range (4 * tt)).foldl
        (fun p i => (row410 p.2 (px i) (4 * n) p.1, (if p.2 = 4 then 0 else p.2) + 1))
        (st, 1) with hP
      have hPeta : P = (P.1, 1) := Prod.ext rfl hflag
      rw [hPeta]
      simp only [List.foldl_cons, List.foldl_nil]
      simp only [show ((if (1 : Nat) = 4 then 0 else 1) + 1) = 2 by norm_num,
                 show ((if (2 : Nat) = 4 then 0 else 2) + 1) = 3 by norm_num,
                 show ((if (3 : Nat) = 4 then 0 else 3) + 1) = 4 by norm_num,
                 show ((if (4 : Nat) = 4 then 0 else 4) + 1) = 1 by norm_num]
      rw [row410_assign, row410_acc 2 (by omega) (by omega), row410_acc 3 (by omega) (by omega),
          row410_emit]
      refine ⟨?_, ?_, by trivial⟩
      · simp only [hys, List.range_succ, List.map_append, List.flatten_append,
                   List.map_cons, List.map_nil, List.flatten_cons, List.flatten_nil,
                   List.append_assoc, List.append_nil]
      · simp only [huvs, List.range_succ, List.map_append, List.flatten_append,
                   List.map_cons, List.map_nil, List.flatten_cons, List.flatten_nil,
                   List.append_assoc, List.append_nil]
        congr 2
        apply List.map_congr_left
        intro k hk
        have hkn : k < n := List.mem_range.mp hk
        simp only [if_pos hkn, Nat.mod_add_mod]
        have hU := chroma16_byte
          (pixel_convert Plane.U (px (4 * tt) (4 * k)))
          (pixel_convert Plane.U (px (4 * tt) (4 * k + 1)))
          (pixel_convert Plane.U (px (4 * tt) (4 * k + 2)))
          (pixel_convert Plane.U (px (4 * tt) (4 * k + 3)))
          (pixel_convert Plane.U (px (4 * tt + 1) (4 * k)))
          (pixel_convert Plane.U (px (4 * tt + 1) (4 * k + 1)))
          (pixel_convert Plane.U (px (4 * tt + 1) (4 * k + 2)))
          (pixel_convert Plane.U (px (4 * tt + 1) (4 * k + 3)))
          (pixel_convert Plane.U (px (4 * tt + 2) (4 * k)))
          (pixel_convert Plane.U (px (4 * tt + 2) (4 * k + 1)))
          (pixel_convert Plane.U (px (4 * tt + 2) (4 * k + 2)))
          (pixel_convert Plane.U (px (4 * tt + 2) (4 * k + 3)))
          (pixel_convert Plane.U (px (4 * tt + 3) (4 * k)))
          (pixel_convert Plane.U (px (4 * tt + 3) (4 * k + 1)))
          (pixel_convert Plane.U (px (4 * tt + 3) (4 * k + 2)))
          (pixel_convert Plane.U (px (4 * tt + 3) (4 * k + 3)))
          ⟨pixel_convert_le_255 _ _, pixel_convert_le_255 _ _,
           pixel_convert_le_255 _ _, pixel_convert_le_255 _ _⟩
          ⟨pixel_convert_le_255 _ _, pixel_convert_le_255 _ _,
           pixel_convert_le_255 _ _, pixel_convert_le_255 _ _⟩
          ⟨pixel_convert_le_255 _ _, pixel_convert_le_255 _ _,
           pixel_convert_le_255 _ _, pixel_convert_le_255 _ _⟩
          ⟨pixel_convert_le_255 _ _, pixel_convert_le_255 _ _,
           pixel_convert_le_255 _ _, pixel_convert_le_255 _ _⟩
        have hV := chroma16_byte
          (pixel_convert Plane.V (px (4 * tt) (4 * k)))
          (pixel_convert Plane.V (px (4 * tt) (4 * k + 1)))
          (pixel_convert Plane.V (px (4 * tt) (4 * k + 2)))
          (pixel_convert Plane.V (px (4 * tt) (4 * k + 3)))
          (pixel_convert Plane.V (px (4 * tt + 1) (4 * k)))
          (pixel_convert Plane.V (px (4 * tt + 1) (4 * k + 1)))
          (pixel_convert Plane.V (px (4 * tt + 1) (4 * k + 2)))
          (pixel_convert Plane.V (px (4 * tt + 1) (4 * k + 3)))
          (pixel_convert Plane.V (px (4 * tt + 2) (4 * k)))
          (pixel_convert Plane.V (px (4 * tt + 2) (4 * k + 1)))
          (pixel_convert Plane.V (px (4 * tt + 2) (4 * k + 2)))
          (pixel_convert Plane.V (px (4 * tt + 2) (4 * k + 3)))
          (pixel_convert Plane.V (px (4 * tt + 3) (4 * k)))
          (pixel_convert Plane.V (px (4 * tt + 3) (4 * k + 1)))
          (pixel_convert Plane.V (px (4 * tt + 3) (4 * k + 2)))
          (pixel_convert Plane.V (px (4 * tt + 3) (4 * k + 3)))
          ⟨pixel_convert_le_255 _ _, pixel_convert_le_255 _ _,
           pixel_convert_le_255 _ _, pixel_convert_le_255 _ _⟩
          ⟨pixel_convert_le_255 _ _, pixel_convert_le_255 _ _,
           pixel_convert_le_255 _ _, pixel_convert_le_255 _ _⟩
          ⟨pixel_convert_le_255 _ _, pixel_convert_le_255 _ _,
           pixel_convert_le_255 _ _, pixel_convert_le_255 _ _⟩
          ⟨pixel_convert_le_255 _ _, pixel_convert_le_255 _ _,
           pixel_convert_le_255 _ _, pixel_convert_le_255 _ _⟩
        rw [hU, hV]
        simp [blockSum410, rowSum4]

theorem transform410_spec (px : Nat → Nat → Rgb) (n t : Nat) (aU aV : Nat → Nat) :
    (transform410 px (4 * n) (4 * t) ⟨aU, aV, [], []⟩).ys = yPlane px (4 * n) (4 * t) ∧
    (transform410 px (4 * n) (4 * t) ⟨aU, aV, [], []⟩).uvs = chroma410_claim px n t := by
  obtain ⟨hys, huvs, _⟩ := transform410_go px n t ⟨aU, aV, [], []⟩
  unfold transform410
  rw [hys, huvs]
  constructor
  · simp [yPlane]
  · simp [chroma410_claim]

/-- Claim C2: for the 4:2:0 targets (YV12, YU12, NV12, NV21), the writer
emits one Y byte per pixel in row-major order, and each emitted chroma
pair equals the sum of the four per-pixel converted U (resp. V) values of
its 2x2 pixel block shifted right by 2.  The transient width/2-cell uint16
accumulator indexed by j >> 1 and the parity-flag emission discipline
(emit only on the second source row of each pair, after both rows have
been accumulated) are embedded in step420/row420/transform420.  The image
is 2n x 2t; the initial accumulator contents aU/aV are arbitrary, because
each cell is written by assignment before it is ever read. -/
theorem C2_yuv420_blocks (px : Nat → Nat → Rgb) (n t : Nat) (aU aV : Nat → Nat) :
    (transform420 px (2 * n) (2 * t) ⟨aU, aV, [], []⟩).ys = yPlane px (2 * n) (2 * t) ∧
    (transform420 px (2 * n) (2 * t) ⟨aU, aV, [], []⟩).uvs = chroma420_claim px n t :=
  transform420_spec px n t aU aV

theorem shr1_double (u : Nat) : (u + u) >>> 1 = u := by
  have h : (u + u) >>> 1 = (u + u) / 2 := by
    rw [Nat.shiftRight_eq_div_pow, Nat.pow_one]
  omega

theorem shr2_quad (u : Nat) : (u + u + u + u) >>> 2 = u := by
  have h : (u + u + u + u) >>> 2 = (u + u + u + u) / 4 := by
    rw [Nat.shiftRight_eq_div_pow]
  omega

theorem shr4_sixteen (u : Nat) :
    (u + u + u + u + (u + u + u + u) + (u + u + u + u) + (u + u + u + u)) >>> 4 = u := by
  have h : (u + u + u + u + (u + u + u + u) + (u + u + u + u) + (u + u + u + u)) >>> 4 =
      (u + u + u + u + (u + u + u + u) + (u + u + u + u) + (u + u + u + u)) / 16 := by
    rw [Nat.shiftRight_eq_div_pow]
  omega

theorem pairs_replicate {α : Type} (c : α) : (m : Nat) →
    pairs (List.replicate (2 * m) c) = List.replicate m (c, c)
  | 0 => rfl
  | m + 1 => by
      rw [show 2 * (m + 1) = 2 * m + 1 + 1 by ring]
      simp [List.replicate_succ, pairs, pairs_replicate c m]

theorem quads_replicate {α : Type} (c : α) : (m : Nat) →
    quads (List.replicate (4 * m) c) = List.replicate m (c, c, c, c)
  | 0 => rfl
  | m + 1 => by
      rw [show 4 * (m + 1) = 4 * m + 1 + 1 + 1 + 1 by ring]
      simp [List.replicate_succ, quads, quads_replicate c m]

theorem flatten_replicate_replicate {α : Type} (x : α) : (t n : Nat) →
    (List.replicate t (List.replicate n x)).flatten = List.replicate (t * n) x
  | 0, n => by simp
  | t + 1, n => by
      rw [List.replicate_succ, List.flatten_cons, flatten_replicate_replicate x t n,
          show (t + 1) * n = n + t * n by ring, List.replicate_add]

theorem chroma420_claim_const (c : Rgb) (n t : Nat) :
    chroma420_claim (fun _ _ => c) n t =
      List.replicate (t * n) (pixel_convert Plane.U c, pixel_convert Plane.V c) := by
  unfold chroma420_claim
  have hU : ∀ bi bj : Nat, blockSum420 Plane.U (fun _ _ => c) bi bj >>> 2 =
      pixel_convert Plane.U c := by
    intro bi bj
    unfold blockSum420 sum4
    exact shr2_quad _
  have hV : ∀ bi bj : Nat, blockSum420 Plane.V (fun _ _ => c) bi bj >>> 2 =
      pixel_convert Plane.V c := by
    intro bi bj
    unfold blockSum420 sum4
    exact shr2_quad _
  simp only [hU, hV]
  rw [show (List.range n).map
        (fun _ => (pixel_convert Plane.U c, pixel_convert Plane.V c)) =
      List.replicate n (pixel_convert Plane.U c, pixel_convert Plane.V c) from by
        simp [List.map_const'],
      show (List.range t).map
        (fun _ => List.replicate n (pixel_convert Plane.U c, pixel_convert Plane.V c)) =
      List.replicate t (List.replicate n (pixel_convert Plane.U c, pixel_convert Plane.V c))
        from by simp [List.map_const'],
      flatten_replicate_replicate]

theorem chroma410_claim_const (c : Rgb) (n t : Nat) :
    chroma410_claim (fun _ _ => c) n t =
      List.replicate (t * n) (pixel_convert Plane.U c, pixel_convert Plane.V c) := by
  unfold chroma410_claim
  have hU : ∀ bi bj : Nat, blockSum410 Plane.U (fun _ _ => c) bi bj >>> 4 =
      pixel_convert Plane.U c := by
    intro bi bj
    unfold blockSum410 rowSum4
    exact shr4_sixteen _
  have hV : ∀ bi bj : Nat, blockSum410 Plane.V (fun _ _ => c) bi bj >>> 4 =
      pixel_convert Plane.V c := by
    intro bi bj
    unfold blockSum410 rowSum4
    exact shr4_sixteen _
  simp only [hU, hV]
  rw [show (List.range n).map
        (fun _ => (pixel_convert Plane.U c, pixel_convert Plane.V c)) =
      List.replicate n (pixel_convert Plane.U c, pixel_convert Plane.V c) from by
        simp [List.map_const'],
      show (List.range t).map
        (fun _ => List.replicate n (pixel_convert Plane.U c, pixel_convert Plane.V c)) =
      List.replicate t (List.replicate n (pixel_convert Plane.U c, pixel_convert Plane.V c))
        from by simp [List.map_const'],
      flatten_replicate_replicate]

theorem y41p_claim_replicate (c : Rgb) : (m : Nat) →
    y41p_claim (List.replicate (8 * m) c) =
      (List.replicate m
        [pixel_convert Plane.U c, pixel_convert Plane.Y c,
         pixel_convert Plane.V c, pixel_convert Plane.Y c,
         pixel_convert Plane.U c, pixel_convert Plane.Y c,
         pixel_convert Plane.V c, pixel_convert Plane.Y c,
         pixel_convert Plane.Y c, pixel_convert Plane.Y c,
         pixel_convert Plane.Y c, pixel_convert Plane.Y c]).flatten
  | 0 => rfl
  | m + 1 => by
      rw [show 8 * (m + 1) = 8 * m + 1 + 1 + 1 + 1 + 1 + 1 + 1 + 1 by ring]
      simp only [List.replicate_succ, y41p_claim, List.flatten_cons,
                 y41p_claim_replicate c m, sum4]
      simp [shr2_quad]

theorem y41p_claim_eq_mean : (ps : List Rgb) → y41p_claim ps = y41p_mean ps
  | p0 :: p1 :: p2 :: p3 :: p4 :: p5 :: p6 :: p7 :: rest => by
      have ih := y41p_claim_eq_mean rest
      have hdiv2 : ∀ s : Nat, s >>> 2 = s / 4 := fun s => by
        rw [Nat.shiftRight_eq_div_pow]
      simp only [y41p_claim, y41p_mean, ih, hdiv2]
  | [] => rfl
  | [p] => rfl
  | [p, q] => rfl
  | [p, q, s] => rfl
  | [p, q, s, u] => rfl
  | [p, q, s, u, a] => rfl
  | [p, q, s, u, a, e] => rfl
  | [p, q, s, u, a, e, f] => rfl

theorem row420_assign_any (r : Nat → Rgb) (w : Nat) (st : AccSt) :
    (row420 false r w st).uvs = st.uvs ∧
    (row420 false r w st).ys =
      st.ys ++ (List.range w).map (fun j => pixel_convert Plane.Y (r j)) ∧
    (∀ k, k < w / 2 → (row420 false r w st).accU k =
      (pixel_convert Plane.U (r (2 * k)) + pixel_convert Plane.U (r (2 * k + 1))) % 65536) ∧
    (∀ k, k < w / 2 → (row420 false r w st).accV k =
      (pixel_convert Plane.V (r (2 * k)) + pixel_convert Plane.V (r (2 * k + 1))) % 65536) := by
  rcases (show w % 2 = 0 ∨ w % 2 = 1 by omega) with hpar | hpar
  · obtain ⟨m, rfl⟩ : ∃ m, w = 2 * m := ⟨w / 2, by omega⟩
    have e : 2 * m / 2 = m := by omega
    unfold row420
    rw [row420_assign_go]
    refine ⟨rfl, rfl, ?_, ?_⟩
    · intro k hk
      rw [e] at hk
      simp [hk]
    · intro k hk
      rw [e] at hk
      simp [hk]
  · obtain ⟨m, rfl⟩ : ∃ m, w = 2 * m + 1 := ⟨w / 2, by omega⟩
    have e : (2 * m + 1) / 2 = m := by omega
    unfold row420
    rw [List.range_succ, List.foldl_append, row420_assign_go]
    simp only [List.foldl_cons, List.foldl_nil, step420]
    have e2 : 2 * m / 2 = m := by omega
    rw [e2]
    refine ⟨by trivial, ?_, ?_, ?_⟩
    · simp [List.range_succ, List.append_assoc]
    · intro k hk
      rw [e] at hk
      simp [upd, hk, Nat.ne_of_lt hk]
    · intro k hk
      rw [e] at hk
      simp [upd, hk, Nat.ne_of_lt hk]

theorem row420_emit_any (r : Nat → Rgb) (w : Nat) (st : AccSt) :
    (row420 true r w st).uvs = st.uvs ++ (List.range (w / 2)).map (fun k =>
      ((((st.accU k + pixel_convert Plane.U (r (2 * k)) +
          pixel_convert Plane.U (r (2 * k + 1))) % 65536) >>> 2) % 256,
       (((st.accV k + pixel_convert Plane.V (r (2 * k)) +
          pixel_convert Plane.V (r (2 * k + 1))) % 65536) >>> 2) % 256)) ∧
    (row420 true r w st).ys =
      st.ys ++ (List.range w).map (fun j => pixel_convert Plane.Y (r j)) := by
  rcases (show w % 2 = 0 ∨ w % 2 = 1 by omega) with hpar | hpar
  · obtain ⟨m, rfl⟩ : ∃ m, w = 2 * m := ⟨w / 2, by omega⟩
    have e : 2 * m / 2 = m := by omega
    unfold row420
    rw [row420_emit_go, e]
    exact ⟨rfl, rfl⟩
  · obtain ⟨m, rfl⟩ : ∃ m, w = 2 * m + 1 := ⟨w / 2, by omega⟩
    have e : (2 * m + 1) / 2 = m := by omega
    unfold row420
    rw [List.range_succ, List.foldl_append, row420_emit_go]
    simp only [List.foldl_cons, List.foldl_nil, step420]
    rw [e]
    refine ⟨by trivial, ?_⟩
    simp [List.range_succ, List.append_assoc]

theorem transform420_any_go (px : Nat → Nat → Rgb) (w t : Nat) : ∀ st : AccSt,
    (((List.range (2 * t)).foldl (fun p i => (row420 p.2 (px i) w p.1, !p.2))
        (st, false)).1.uvs =
       st.uvs ++ ((List.range t).map (fun bi => (List.range (w / 2)).map (fun bj =>
         (blockSum420 Plane.U px bi bj >>> 2, blockSum420 Plane.V px bi bj >>> 2)))).flatten) ∧
    (((List.range (2 * t)).foldl (fun p i => (row420 p.2 (px i) w p.1, !p.2))
        (st, false)).1.ys =
       st.ys ++ ((List.range (2 * t)).map (fun i =>
         (List.range w).map (fun j => pixel_convert Plane.Y (px i j)))).flatten) ∧
    (((List.range (2 * t)).foldl (fun p i => (row420 p.2 (px i) w p.1, !p.2))
        (st, false)).2 = false) := by
  induction t with
  | zero =>
      intro st
      refine ⟨by simp, by simp, by simp⟩
  | succ tt ih =>
      intro st
      obtain ⟨huvs, hys, hflag⟩ := ih st
      rw [show 2 * (tt + 1) = 2 * tt + 1 + 1 by ring, List.range_succ, List.foldl_append,
          List.range_succ, List.foldl_append]
      set P := (List.range (2 * tt)).foldl
        (fun p i => (row420 p.2 (px i) w p.1, !p.2)) (st, false) with hP
      have hPeta : P = (P.1, false) := Prod.ext rfl hflag
      rw [hPeta]
      simp only [List.foldl_cons, List.foldl_nil, Bool.not_false, Bool.not_true]
      obtain ⟨hAuvs, hAys, hAaccU, hAaccV⟩ := row420_assign_any (px (2 * tt)) w P.1
      obtain ⟨hBuvs, hBys⟩ :=
        row420_emit_any (px (2 * tt + 1)) w (row420 false (px (2 * tt)) w P.1)
      refine ⟨?_, ?_, by trivial⟩
      · rw [hBuvs, hAuvs, huvs]
        simp only [List.range_succ, List.map_append, List.flatten_append, List.map_cons,
                   List.map_nil, List.flatten_cons, List.flatten_nil, List.append_assoc,
                   List.append_nil]
        congr 2
        apply List.map_congr_left
        intro k hk
        have hkn : k < w / 2 := List.mem_range.mp hk
        have hu0 := pixel_convert_le_255 Plane.U (px (2 * tt) (2 * k))
        have hu1 := pixel_convert_le_255 Plane.U (px (2 * tt) (2 * k + 1))
        have hu2 := pixel_convert_le_255 Plane.U (px (2 * tt + 1) (2 * k))
        have hu3 := pixel_convert_le_255 Plane.U (px (2 * tt + 1) (2 * k + 1))
        have hv0 := pixel_convert_le_255 Plane.V (px (2 * tt) (2 * k))
        have hv1 := pixel_convert_le_255 Plane.V (px (2 * tt) (2 * k + 1))
        have hv2 := pixel_convert_le_255 Plane.V (px (2 * tt + 1) (2 * k))
        have hv3 := pixel_convert_le_255 Plane.V (px (2 * tt + 1) (2 * k + 1))
        rw [hAaccU k hkn, hAaccV k hkn, mod_add_add_mod, mod_add_add_mod,
            mod_shr2_byte _ (by omega), mod_shr2_byte _ (by omega)]
        rfl
      · rw [hBys, hAys, hys]
        simp only [List.range_succ, List.map_append, List.flatten_append, List.map_cons,
                   List.map_nil, List.flatten_cons, List.flatten_nil, List.append_assoc,
                   List.append_nil]

theorem transform420_uvs_any (px : Nat → Nat → Rgb) (w h : Nat) (aU aV : Nat → Nat) :
    (transform420 px w h ⟨aU, aV, [], []⟩).uvs = chroma420_claim px (w / 2) (h / 2) := by
  unfold transform420
  rcases (show h % 2 = 0 ∨ h % 2 = 1 by omega) with hpar | hpar
  · obtain ⟨t, rfl⟩ : ∃ t, h = 2 * t := ⟨h / 2, by omega⟩
    have e : 2 * t / 2 = t := by omega
    obtain ⟨huvs, _, _⟩ := transform420_any_go px w t ⟨aU, aV, [], []⟩
    rw [huvs]
    unfold chroma420_claim
    simp [e]
  · obtain ⟨t, rfl⟩ : ∃ t, h = 2 * t + 1 := ⟨h / 2, by omega⟩
    have e : (2 * t + 1) / 2 = t := by omega
    rw [List.range_succ, List.foldl_append]
    obtain ⟨huvs, _, hflag⟩ := transform420_any_go px w t ⟨aU, aV, [], []⟩
    set P := (List.range (2 * t)).foldl
      (fun p i => (row420 p.2 (px i) w p.1, !p.2)) ((⟨aU, aV, [], []⟩ : AccSt), false) with hP
    have hPeta : P = (P.1, false) := Prod.ext rfl hflag
    rw [hPeta]
    simp only [List.foldl_cons, List.foldl_nil]
    obtain ⟨hAuvs, _, _, _⟩ := row420_assign_any (px (2 * t)) w P.1
    rw [hAuvs, huvs]
    unfold chroma420_claim
    simp [e]

theorem step410_proj (hf wf : Nat) (hwf : wf ≠ 4) (r : Nat → Rgb) (j : Nat) (st : AccSt) :
    (step410 hf wf r j st).uvs = st.uvs ∧
    (step410 hf wf r j st).ys = st.ys ++ [pixel_convert Plane.Y (r j)] ∧
    (∀ k, k ≠ j / 4 → (step410 hf wf r j st).accU k = st.accU k) ∧
    (∀ k, k ≠ j / 4 → (step410 hf wf r j st).accV k = st.accV k) := by
  unfold step410 acc410
  split_ifs with h1 h2 h3 h4
  all_goals first
    | exact absurd h4 hwf
    | (refine ⟨rfl, rfl, ?_, ?_⟩ <;> intro k hk <;> simp [upd, hk])

theorem row410_assign_any (r : Nat → Rgb) (w : Nat) (st : AccSt) :
    (row410 1 r w st).uvs = st.uvs ∧
    (row410 1 r w st).ys =
      st.ys ++ (List.range w).map (fun j => pixel_convert Plane.Y (r j)) ∧
    (∀ k, k < w / 4 → (row410 1 r w st).accU k =
      (pixel_convert Plane.U (r (4 * k)) + pixel_convert Plane.U (r (4 * k + 1)) +
       pixel_convert Plane.U (r (4 * k + 2)) + pixel_convert Plane.U (r (4 * k + 3))) % 65536) ∧
    (∀ k, k < w / 4 → (row410 1 r w st).accV k =
      (pixel_convert Plane.V (r (4 * k)) + pixel_convert Plane.V (r (4 * k + 1)) +
       pixel_convert Plane.V (r (4 * k + 2)) + pixel_convert Plane.V (r (4 * k + 3))) % 65536) := by
  rcases (show w % 4 = 0 ∨ w % 4 = 1 ∨ w % 4 = 2 ∨ w % 4 = 3 by omega)
    with hpar | hpar | hpar | hpar
  · obtain ⟨m, rfl⟩ : ∃ m, w = 4 * m := ⟨w / 4, by omega⟩
    unfold row410
    rw [row410_assign_go]
    refine ⟨by trivial, by trivial, ?_, ?_⟩
    · intro k hk
      have hkm : k < m := by omega
      simp [hkm]
    · intro k hk
      have hkm : k < m := by omega
      simp [hkm]
  · obtain ⟨m, rfl⟩ : ∃ m, w = 4 * m + 1 := ⟨w / 4, by omega⟩
    unfold row410
    rw [List.range_succ, List.foldl_append, row410_assign_go]
    simp only [List.foldl_cons, List.foldl_nil]
    refine ⟨?_, ?_, ?_, ?_⟩
    · rw [(step410_proj 1 1 (by omega) r (4 * m) _).1]
    · rw [(step410_proj 1 1 (by omega) r (4 * m) _).2.1]
      simp [List.range_succ, List.append_assoc]
    · intro k hk
      have hkm : k < m := by omega
      rw [(step410_proj 1 1 (by omega) r (4 * m) _).2.2.1 k (by omega)]
      simp [hkm]
    · intro k hk
      have hkm : k < m := by omega
      rw [(step410_proj 1 1 (by omega) r (4 * m) _).2.2.2 k (by omega)]
      simp [hkm]
  · obtain ⟨m, rfl⟩ : ∃ m, w = 4 * m + 2 := ⟨w / 4, by omega⟩
    unfold row410
    rw [show 4 * m + 2 = 4 * m + 1 + 1 by ring, List.range_succ, List.foldl_append,
        List.range_succ, List.foldl_append, row410_assign_go]
    simp only [List.foldl_cons, List.foldl_nil,
               show ((if (1 : Nat) = 4 then 0 else 1) + 1) = 2 by norm_num]
    refine ⟨?_, ?_, ?_, ?_⟩
    · rw [(step410_proj 1 2 (by omega) r (4 * m + 1) _).1,
          (step410_proj 1 1 (by omega) r (4 * m) _).1]
    · rw [(step410_proj 1 2 (by omega) r (4 * m + 1) _).2.1,
          (step410_proj 1 1 (by omega) r (4 * m) _).2.1]
      simp [List.range_succ, List.append_assoc]
    · intro k hk
      have hkm : k < m := by omega
      rw [(step410_proj 1 2 (by omega) r (4 * m + 1) _).2.2.1 k (by omega),
          (step410_proj 1 1 (by omega) r (4 * m) _).2.2.1 k (by omega)]
      simp [hkm]
    · intro k hk
      have hkm : k < m := by omega
      rw [(step410_proj 1 2 (by omega) r (4 * m + 1) _).2.2.2 k (by omega),
          (step410_proj 1 1 (by omega) r (4 * m) _).2.2.2 k (by omega)]
      simp [hkm]
  · obtain ⟨m, rfl⟩ : ∃ m, w = 4 * m + 3 := ⟨w / 4, by omega⟩
    unfold row410
    rw [show 4 * m + 3 = 4 * m + 1 + 1 + 1 by ring, List.range_succ, List.foldl_append,
        List.range_succ, List.foldl_append, List.range_succ, List.foldl_append,
        row410_assign_go]
    simp only [List.foldl_cons, List.foldl_nil,
               show ((if (1 : Nat) = 4 then 0 else 1) + 1) = 2 by norm_num,
               show ((if (2 : Nat) = 4 then 0 else 2) + 1) = 3 by norm_num]
    refine ⟨?_, ?_, ?_, ?_⟩
    · rw [(step410_proj 1 3 (by omega) r (4 * m + 2) _).1,
          (step410_proj 1 2 (by omega) r (4 * m + 1) _).1,
          (step410_proj 1 1 (by omega) r (4 * m) _).1]
    · rw [(step410_proj 1 3 (by omega) r (4 * m + 2) _).2.1,
          (step410_proj 1 2 (by omega) r (4 * m + 1) _).2.1,
          (step410_proj 1 1 (by omega) r (4 * m) _).2.1]
      simp [List.range_succ, List.append_assoc]
    · intro k hk
      have hkm : k < m := by omega
      rw [(step410_proj 1 3 (by omega) r (4 * m + 2) _).2.2.1 k (by omega),
          (step410_proj 1 2 (by omega) r (4 * m + 1) _).2.2.1 k (by omega),
          (step410_proj 1 1 (by omega) r (4 * m) _).2.2.1 k (by omega)]
      simp [hkm]
    · intro k hk
      have hkm : k < m := by omega
      rw [(step410_proj 1 3 (by omega) r (4 * m + 2) _).2.2.2 k (by omega),
          (step410_proj 1 2 (by omega) r (4 * m + 1) _).2.2.2 k (by omega),
          (step410_proj 1 1 (by omega) r (4 * m) _).2.2.2 k (by omega)]
      simp [hkm]

theorem row410_acc_any (hf : Nat) (hf1 : hf ≠ 1) (hf4 : hf ≠ 4) (r : Nat → Rgb) (w : Nat)
    (st : AccSt) :
    (row410 hf r w st).uvs = st.uvs ∧
    (row410 hf r w st).ys =
      st.ys ++ (List.range w).map (fun j => pixel_convert Plane.Y (r j)) ∧
    (∀ k, k < w / 4 → (row410 hf r w st).accU k =
      (st.accU k + pixel_convert Plane.U (r (4 * k)) + pixel_convert Plane.U (r (4 * k + 1)) +
       pixel_convert Plane.U (r (4 * k + 2)) + pixel_convert Plane.U (r (4 * k + 3))) % 65536) ∧
    (∀ k, k < w / 4 → (row410 hf r w st).accV k =
      (st.accV k + pixel_convert Plane.V (r (4 * k)) + pixel_convert Plane.V (r (4 * k + 1)) +
       pixel_convert Plane.V (r (4 * k + 2)) + pixel_convert Plane.V (r (4 * k + 3))) % 65536) := by
  rcases (show w % 4 = 0 ∨ w % 4 = 1 ∨ w % 4 = 2 ∨ w % 4 = 3 by omega)
    with hpar | hpar | hpar | hpar
  · obtain ⟨m, rfl⟩ : ∃ m, w = 4 * m := ⟨w / 4, by omega⟩
    unfold row410
    rw [row410_acc_go hf hf1 hf4]
    refine ⟨by trivial, by trivial, ?_, ?_⟩
    · intro k hk
      have hkm : k < m := by omega
      simp [hkm]
    · intro k hk
      have hkm : k < m := by omega
      simp [hkm]
  · obtain ⟨m, rfl⟩ : ∃ m, w = 4 * m + 1 := ⟨w / 4, by omega⟩
    unfold row410
    rw [List.range_succ, List.foldl_append, row410_acc_go hf hf1 hf4]
    simp only [List.foldl_cons, List.foldl_nil]
    refine ⟨?_, ?_, ?_, ?_⟩
    · rw [(step410_proj hf 1 (by omega) r (4 * m) _).1]
    · rw [(step410_proj hf 1 (by omega) r (4 * m) _).2.1]
      simp [List.range_succ, List.append_assoc]
    · intro k hk
      have hkm : k < m := by omega
      rw [(step410_proj hf 1 (by omega) r (4 * m) _).2.2.1 k (by omega)]
      simp [hkm]
    · intro k hk
      have hkm : k < m := by omega
      rw [(step410_proj hf 1 (by omega) r (4 * m) _).2.2.2 k (by omega)]
      simp [hkm]
  · obtain ⟨m, rfl⟩ : ∃ m, w = 4 * m + 2 := ⟨w / 4, by omega⟩
    unfold row410
    rw [show 4 * m + 2 = 4 * m + 1 + 1 by ring, List.range_succ, List.foldl_append,
        List.range_succ, List.foldl_append, row410_acc_go hf hf1 hf4]
    simp only [List.foldl_cons, List.foldl_nil,
               show ((if (1 : Nat) = 4 then 0 else 1) + 1) = 2 by norm_num]
    refine ⟨?_, ?_, ?_, ?_⟩
    · rw [(step410_proj hf 2 (by omega) r (4 * m + 1) _).1,
          (step410_proj hf 1 (by omega) r (4 * m) _).1]
    · rw [(step410_proj hf 2 (by omega) r (4 * m + 1) _).2.1,
          (step410_proj hf 1 (by omega) r (4 * m) _).2.1]
      simp [List.range_succ, List.append_assoc]
    · intro k hk
      have hkm : k < m := by omega
      rw [(step410_proj hf 2 (by omega) r (4 * m + 1) _).2.2.1 k (by omega),
          (step410_proj hf 1 (by omega) r (4 * m) _).2.2.1 k (by omega)]
      simp [hkm]
    · intro k hk
      have hkm : k < m := by omega
      rw [(step410_proj hf 2 (by omega) r (4 * m + 1) _).2.2.2 k (by omega),
          (step410_proj hf 1 (by omega) r (4 * m) _).2.2.2 k (by omega)]
      simp [hkm]
  · obtain ⟨m, rfl⟩ : ∃ m, w = 4 * m + 3 := ⟨w / 4, by omega⟩
    unfold row410
    rw [show 4 * m + 3 = 4 * m + 1 + 1 + 1 by ring, List.range_succ, List.foldl_append,
        List.range_succ, List.foldl_append, List.range_succ, List.foldl_append,
        row410_acc_go hf hf1 hf4]
    simp only [List.foldl_cons, List.foldl_nil,
               show ((if (1 : Nat) = 4 then 0 else 1) + 1) = 2 by norm_num,
               show ((if (2 : Nat) = 4 then 0 else 2) + 1) = 3 by norm_num]
    refine ⟨?_, ?_, ?_, ?_⟩
    · rw [(step410_proj hf 3 (by omega) r (4 * m + 2) _).1,
          (step410_proj hf 2 (by omega) r (4 * m + 1) _).1,
          (step410_proj hf 1 (by omega) r (4 * m) _).1]
    · rw [(step410_proj hf 3 (by omega) r (4 * m + 2) _).2.1,
          (step410_proj hf 2 (by omega) r (4 * m + 1) _).2.1,
          (step410_proj hf 1 (by omega) r (4 * m) _).2.1]
      simp [List.range_succ, List.append_assoc]
    · intro k hk
      have hkm : k < m := by omega
      rw [(step410_proj hf 3 (by omega) r (4 * m + 2) _).2.2.1 k (by omega),
          (step410_proj hf 2 (by omega) r (4 * m + 1) _).2.2.1 k (by omega),
          (step410_proj hf 1 (by omega) r (4 * m) _).2.2.1 k (by omega)]
      simp [hkm]
    · intro k hk
      have hkm : k < m := by omega
      rw [(step410_proj hf 3 (by omega) r (4 * m + 2) _).2.2.2 k (by omega),
          (step410_proj hf 2 (by omega) r (4 * m + 1) _).2.2.2 k (by omega),
          (step410_proj hf 1 (by omega) r (4 * m) _).2.2.2 k (by omega)]
      simp [hkm]

theorem row410_emit_any (r : Nat → Rgb) (w : Nat) (st : AccSt) :
    (row410 4 r w st).uvs = st.uvs ++ (List.range (w / 4)).map (fun k =>
      ((((st.accU k + pixel_convert Plane.U (r (4 * k)) + pixel_convert Plane.U (r (4 * k + 1)) +
          pixel_convert Plane.U (r (4 * k + 2)) + pixel_convert Plane.U (r (4 * k + 3))) % 65536) >>> 4) % 256,
       (((st.accV k + pixel_convert Plane.V (r (4 * k)) + pixel_convert Plane.V (r (4 * k + 1)) +
          pixel_convert Plane.V (r (4 * k + 2)) + pixel_convert Plane.V (r (4 * k + 3))) % 65536) >>> 4) % 256)) ∧
    (row410 4 r w st).ys =
      st.ys ++ (List.range w).map (fun j => pixel_convert Plane.Y (r j)) := by
  rcases (show w % 4 = 0 ∨ w % 4 = 1 ∨ w % 4 = 2 ∨ w % 4 = 3 by omega)
    with hpar | hpar | hpar | hpar
  · obtain ⟨m, rfl⟩ : ∃ m, w = 4 * m := ⟨w / 4, by omega⟩
    have e : 4 * m / 4 = m := by omega
    unfold row410
    rw [row410_emit_go, e]
    exact ⟨rfl, rfl⟩
  · obtain ⟨m, rfl⟩ : ∃ m, w = 4 * m + 1 := ⟨w / 4, by omega⟩
    have e : (4 * m + 1) / 4 = m := by omega
    unfold row410
    rw [List.range_succ, List.foldl_append, row410_emit_go]
    simp only [List.foldl_cons, List.foldl_nil]
    rw [e]
    refine ⟨?_, ?_⟩
    · rw [(step410_proj 4 1 (by omega) r (4 * m) _).1]
    · rw [(step410_proj 4 1 (by omega) r (4 * m) _).2.1]
      simp [List.range_succ, List.append_assoc]
  · obtain ⟨m, rfl⟩ : ∃ m, w = 4 * m + 2 := ⟨w / 4, by omega⟩
    have e : (4 * m + 2) / 4 = m := by omega
    unfold row410
    rw [show 4 * m + 2 = 4 * m + 1 + 1 by ring, List.range_succ, List.foldl_append,
        List.range_succ, List.foldl_append, row410_emit_go]
    simp only [List.foldl_cons, List.foldl_nil,
               show ((if (1 : Nat) = 4 then 0 else 1) + 1) = 2 by norm_num]
    rw [show (4 * m + 1 + 1) / 4 = m by omega]
    refine ⟨?_, ?_⟩
    · rw [(step410_proj 4 2 (by omega) r (4 * m + 1) _).1,
          (step410_proj 4 1 (by omega) r (4 * m) _).1]
    · rw [(step410_proj 4 2 (by omega) r (4 * m + 1) _).2.1,
          (step410_proj 4 1 (by omega) r (4 * m) _).2.1]
      simp [List.range_succ, List.append_assoc]
  · obtain ⟨m, rfl⟩ : ∃ m, w = 4 * m + 3 := ⟨w / 4, by omega⟩
    unfold row410
    rw [show 4 * m + 3 = 4 * m + 1 + 1 + 1 by ring, List.range_succ, List.foldl_append,
        List.range_succ, List.foldl_append, List.range_succ, List.foldl_append,
        row410_emit_go]
    simp only [List.foldl_cons, List.foldl_nil,
               show ((if (1 : Nat) = 4 then 0 else 1) + 1) = 2 by norm_num,
               show ((if (2 : Nat) = 4 then 0 else 2) + 1) = 3 by norm_num]
    rw [show (4 * m + 1 + 1 + 1) / 4 = m by omega]
    refine ⟨?_, ?_⟩
    · rw [(step410_proj 4 3 (by omega) r (4 * m + 2) _).1,
          (step410_proj 4 2 (by omega) r (4 * m + 1) _).1,
          (step410_proj 4 1 (by omega) r (4 * m) _).1]
    · rw [(step410_proj 4 3 (by omega) r (4 * m + 2) _).2.1,
          (step410_proj 4 2 (by omega) r (4 * m + 1) _).2.1,
          (step410_proj 4 1 (by omega) r (4 * m) _).2.1]
      simp [List.range_succ, List.append_assoc]

theorem transform410_any_go (px : Nat → Nat → Rgb) (w t : Nat) : ∀ st : AccSt,
    (((List.range (4 * t)).foldl
        (fun p i => (row410 p.2 (px i) w p.1, (if p.2 = 4 then 0 else p.2) + 1))
        (st, 1)).1.uvs =
       st.uvs ++ ((List.range t).map (fun bi => (List.range (w / 4)).map (fun bj =>
         (blockSum410 Plane.U px bi bj >>> 4, blockSum410 Plane.V px bi bj >>> 4)))).flatten) ∧
    (((List.range (4 * t)).foldl
        (fun p i => (row410 p.2 (px i) w p.1, (if p.2 = 4 then 0 else p.2) + 1))
        (st, 1)).1.ys =
       st.ys ++ ((List.range (4 * t)).map (fun i =>
         (List.range w).map (fun j => pixel_convert Plane.Y (px i j)))).flatten) ∧
    (((List.range (4 * t)).foldl
        (fun p i => (row410 p.2 (px i) w p.1, (if p.2 = 4 then 0 else p.2) + 1))
        (st, 1)).2 = 1) := by
  induction t with
  | zero =>
      intro st
      refine ⟨by simp, by simp, by simp⟩
  | succ tt ih =>
      intro st
      obtain ⟨huvs, hys, hflag⟩ := ih st
      rw [show 4 * (tt + 1) = 4 * tt + 1 + 1 + 1 + 1 by ring,
          List.range_succ, List.foldl_append, List.range_succ, List.foldl_append,
          List.range_succ, List.foldl_append, List.range_succ, List.foldl_append]
      set P := (List.range (4 * tt)).foldl
        (fun p i => (row410 p.2 (px i) w p.1, (if p.2 = 4 then 0 else p.2) + 1))
        (st, 1) with hP
      have hPeta : P = (P.1, 1) := Prod.ext rfl hflag
      rw [hPeta]
      simp only [List.foldl_cons, List.foldl_nil,
                 show ((if (1 : Nat) = 4 then 0 else 1) + 1) = 2 by norm_num,
                 show ((if (2 : Nat) = 4 then 0 else 2) + 1) = 3 by norm_num,
                 show ((if (3 : Nat) = 4 then 0 else 3) + 1) = 4 by norm_num,
                 show ((if (4 : Nat) = 4 then 0 else 4) + 1) = 1 by norm_num]
      obtain ⟨hAuvs, hAys, hAaccU, hAaccV⟩ := row410_assign_any (px (4 * tt)) w P.1
      obtain ⟨hBuvs, hBys, hBaccU, hBaccV⟩ :=
        row410_acc_any 2 (by omega) (by omega) (px (4 * tt + 1)) w
          (row410 1 (px (4 * tt)) w P.1)
      obtain ⟨hCuvs, hCys, hCaccU, hCaccV⟩ :=
        row410_acc_any 3 (by omega) (by omega) (px (4 * tt + 2)) w
          (row410 2 (px (4 * tt + 1)) w (row410 1 (px (4 * tt)) w P.1))
      obtain ⟨hDuvs, hDys⟩ :=
        row410_emit_any (px (4 * tt + 3)) w
          (row410 3 (px (4 * tt + 2)) w
            (row410 2 (px (4 * tt + 1)) w (row410 1 (px (4 * tt)) w P.1)))
      refine ⟨?_, ?_, by trivial⟩
      · rw [hDuvs, hCuvs, hBuvs, hAuvs, huvs]
        simp only [List.range_succ, List.map_append, List.flatten_append, List.map_cons,
                   List.map_nil, List.flatten_cons, List.flatten_nil, List.append_assoc,
                   List.append_nil]
        congr 2
        apply List.map_congr_left
        intro k hk
        have hkn : k < w / 4 := List.mem_range.mp hk
        rw [hCaccU k hkn, hCaccV k hkn, hBaccU k hkn, hBaccV k hkn,
            hAaccU k hkn, hAaccV k hkn]
        have hU := chroma16_byte
          (pixel_convert Plane.U (px (4 * tt) (4 * k)))
          (pixel_convert Plane.U (px (4 * tt) (4 * k + 1)))
          (pixel_convert Plane.U (px (4 * tt) (4 * k + 2)))
          (pixel_convert Plane.U (px (4 * tt) (4 * k + 3)))
          (pixel_convert Plane.U (px (4 * tt + 1) (4 * k)))
          (pixel_convert Plane.U (px (4 * tt + 1) (4 * k + 1)))
          (pixel_convert Plane.U (px (4 * tt + 1) (4 * k + 2)))
          (pixel_convert Plane.U (px (4 * tt + 1) (4 * k + 3)))
          (pixel_convert Plane.U (px (4 * tt + 2) (4 * k)))
          (pixel_convert Plane.U (px (4 * tt + 2) (4 * k + 1)))
          (pixel_convert Plane.U (px (4 * tt + 2) (4 * k + 2)))
          (pixel_convert Plane.U (px (4 * tt + 2) (4 * k + 3)))
          (pixel_convert Plane.U (px (4 * tt + 3) (4 * k)))
          (pixel_convert Plane.U (px (4 * tt + 3) (4 * k + 1)))
          (pixel_convert Plane.U (px (4 * tt + 3) (4 * k + 2)))
          (pixel_convert Plane.U (px (4 * tt + 3) (4 * k + 3)))
          ⟨pixel_convert_le_255 _ _, pixel_convert_le_255 _ _,
           pixel_convert_le_255 _ _, pixel_convert_le_255 _ _⟩
          ⟨pixel_convert_le_255 _ _, pixel_convert_le_255 _ _,
           pixel_convert_le_255 _ _, pixel_convert_le_255 _ _⟩
          ⟨pixel_convert_le_255 _ _, pixel_convert_le_255 _ _,
           pixel_convert_le_255 _ _, pixel_convert_le_255 _ _⟩
          ⟨pixel_convert_le_255 _ _, pixel_convert_le_255 _ _,
           pixel_convert_le_255 _ _, pixel_convert_le_255 _ _⟩
        have hV := chroma16_byte
          (pixel_convert Plane.V (px (4 * tt) (4 * k)))
          (pixel_convert Plane.V (px (4 * tt) (4 * k + 1)))
          (pixel_convert Plane.V (px (4 * tt) (4 * k + 2)))
          (pixel_convert Plane.V (px (4 * tt) (4 * k + 3)))
          (pixel_convert Plane.V (px (4 * tt + 1) (4 * k)))
          (pixel_convert Plane.V (px (4 * tt + 1) (4 * k + 1)))
          (pixel_convert Plane.V (px (4 * tt + 1) (4 * k + 2)))
          (pixel_convert Plane.V (px (4 * tt + 1) (4 * k + 3)))
          (pixel_convert Plane.V (px (4 * tt + 2) (4 * k)))
          (pixel_convert Plane.V (px (4 * tt + 2) (4 * k + 1)))
          (pixel_convert Plane.V (px (4 * tt + 2) (4 * k + 2)))
          (pixel_convert Plane.V (px (4 * tt + 2) (4 * k + 3)))
          (pixel_convert Plane.V (px (4 * tt + 3) (4 * k)))
          (pixel_convert Plane.V (px (4 * tt + 3) (4 * k + 1)))
          (pixel_convert Plane.V (px (4 * tt + 3) (4 * k + 2)))
          (pixel_convert Plane.V (px (4 * tt + 3) (4 * k + 3)))
          ⟨pixel_convert_le_255 _ _, pixel_convert_le_255 _ _,
           pixel_convert_le_255 _ _, pixel_convert_le_255 _ _⟩
          ⟨pixel_convert_le_255 _ _, pixel_convert_le_255 _ _,
           pixel_convert_le_255 _ _, pixel_convert_le_255 _ _⟩
          ⟨pixel_convert_le_255 _ _, pixel_convert_le_255 _ _,
           pixel_convert_le_255 _ _, pixel_convert_le_255 _ _⟩
          ⟨pixel_convert_le_255 _ _, pixel_convert_le_255 _ _,
           pixel_convert_le_255 _ _, pixel_convert_le_255 _ _⟩
        rw [hU, hV]
        simp [blockSum410, rowSum4]
      · rw [hDys, hCys, hBys, hAys, hys]
        simp only [List.range_succ, List.map_append, List.flatten_append, List.map_cons,
                   List.map_nil, List.flatten_cons, List.flatten_nil, List.append_assoc,
                   List.append_nil]

theorem transform410_uvs_any (px : Nat → Nat → Rgb) (w h : Nat) (aU aV : Nat → Nat) :
    (transform410 px w h ⟨aU, aV, [], []⟩).uvs = chroma410_claim px (w / 4) (h / 4) := by
  unfold transform410
  rcases (show h % 4 = 0 ∨ h % 4 = 1 ∨ h % 4 = 2 ∨ h % 4 = 3 by omega)
    with hpar | hpar | hpar | hpar
  · obtain ⟨t, rfl⟩ : ∃ t, h = 4 * t := ⟨h / 4, by omega⟩
    have e : 4 * t / 4 = t := by omega
    obtain ⟨huvs, _, _⟩ := transform410_any_go px w t ⟨aU, aV, [], []⟩
    rw [huvs]
    unfold chroma410_claim
    simp [e]
  · obtain ⟨t, rfl⟩ : ∃ t, h = 4 * t + 1 := ⟨h / 4, by omega⟩
    have e : (4 * t + 1) / 4 = t := by omega
    rw [List.range_succ, List.foldl_append]
    obtain ⟨huvs, _, hflag⟩ := transform410_any_go px w t ⟨aU, aV, [], []⟩
    set P := (List.range (4 * t)).foldl
      (fun p i => (row410 p.2 (px i) w p.1, (if p.2 = 4 then 0 else p.2) + 1))
      ((⟨aU, aV, [], []⟩ : AccSt), 1) with hP
    have hPeta : P = (P.1, 1) := Prod.ext rfl hflag
    rw [hPeta]
    simp only [List.foldl_cons, List.foldl_nil]
    rw [(row410_assign_any (px (4 * t)) w P.1).1, huvs]
    unfold chroma410_claim
    simp [e]
  · obtain ⟨t, rfl⟩ : ∃ t, h = 4 * t + 2 := ⟨h / 4, by omega⟩
    have e : (4 * t + 2) / 4 = t := by omega
    rw [show 4 * t + 2 = 4 * t + 1 + 1 by ring, List.range_succ, List.foldl_append,
        List.range_succ, List.foldl_append]
    obtain ⟨huvs, _, hflag⟩ := transform410_any_go px w t ⟨aU, aV, [], []⟩
    set P := (List.range (4 * t)).foldl
      (fun p i => (row410 p.2 (px i) w p.1, (if p.2 = 4 then 0 else p.2) + 1))
      ((⟨aU, aV, [], []⟩ : AccSt), 1) with hP
    have hPeta : P = (P.1, 1) := Prod.ext rfl hflag
    rw [hPeta]
    simp only [List.foldl_cons, List.foldl_nil,
               show ((if (1 : Nat) = 4 then 0 else 1) + 1) = 2 by norm_num]
    rw [(row410_acc_any 2 (by omega) (by omega) (px (4 * t + 1)) w
          (row410 1 (px (4 * t)) w P.1)).1,
        (row410_assign_any (px (4 * t)) w P.1).1, huvs]
    unfold chroma410_claim
    simp [e]
  · obtain ⟨t, rfl⟩ : ∃ t, h = 4 * t + 3 := ⟨h / 4, by omega⟩
    have e : (4 * t + 3) / 4 = t := by omega
    rw [show 4 * t + 3 = 4 * t + 1 + 1 + 1 by ring, List.range_succ, List.foldl_append,
        List.range_succ, List.foldl_append, List.range_succ, List.foldl_append]
    obtain ⟨huvs, _, hflag⟩ := transform410_any_go px w t ⟨aU, aV, [], []⟩
    set P := (List.range (4 * t)).foldl
      (fun p i => (row410 p.2 (px i) w p.1, (if p.2 = 4 then 0 else p.2) + 1))
      ((⟨aU, aV, [], []⟩ : AccSt), 1) with hP
    have hPeta : P = (P.1, 1) := Prod.ext rfl hflag
    rw [hPeta]
    simp only [List.foldl_cons, List.foldl_nil,
               show ((if (1 : Nat) = 4 then 0 else 1) + 1) = 2 by norm_num,
               show ((if (2 : Nat) = 4 then 0 else 2) + 1) = 3 by norm_num]
    rw [(row410_acc_any 3 (by omega) (by omega) (px (4 * t + 2)) w
          (row410 2 (px (4 * t + 1)) w (row410 1 (px (4 * t)) w P.1))).1,
        (row410_acc_any 2 (by omega) (by omega) (px (4 * t + 1)) w
          (row410 1 (px (4 * t)) w P.1)).1,
        (row410_assign_any (px (4 * t)) w P.1).1, huvs]
    unfold chroma410_claim
    simp [e]

/-- Claim C9: for every solid-color image whose dimensions fit the
target's grouping, every chroma byte written by every subsampled writer
(4:2:2 packed YUY2/YVYU/UYVY/VYUY, 4:2:2 planar, 4:2:0, Y41P, 4:1:1
planar, 4:1:0) equals the U (resp. V) conversion of the single pixel:
averaging a constant is a no-op for every subsampling ratio.  The 4:2:0
and 4:1:0 conjuncts quantify over arbitrary widths and heights: the
writers emit one chroma pair per completed 2x2 (resp. 4x4) block, i.e.
(h / 2) * (w / 2) (resp. (h / 4) * (w / 4)) pairs, which covers every
image that satisfies the size precondition (e.g. 4x3 for YU12, 8x6 for
YUV9) as well as all others. -/
theorem C9_solid_color_chroma (c : Rgb) :
    (∀ (tag : Packed422) (m : Nat),
      transform_packed422 tag (List.replicate (2 * m) c) =
        (List.replicate m (packed422_bytes tag (pixel_convert Plane.Y c)
          (pixel_convert Plane.U c) (pixel_convert Plane.Y c)
          (pixel_convert Plane.V c))).flatten) ∧
    (∀ m : Nat, (transform_422P (List.replicate (2 * m) c)).2 =
      List.replicate m (pixel_convert Plane.U c, pixel_convert Plane.V c)) ∧
    (∀ (w h : Nat) (aU aV : Nat → Nat),
      (transform420 (fun _ _ => c) w h ⟨aU, aV, [], []⟩).uvs =
        List.replicate ((h / 2) * (w / 2))
          (pixel_convert Plane.U c, pixel_convert Plane.V c)) ∧
    (∀ m : Nat, transform_Y41P (List.replicate (8 * m) c) =
      (List.replicate m
        [pixel_convert Plane.U c, pixel_convert Plane.Y c,
         pixel_convert Plane.V c, pixel_convert Plane.Y c,
         pixel_convert Plane.U c, pixel_convert Plane.Y c,
         pixel_convert Plane.V c, pixel_convert Plane.Y c,
         pixel_convert Plane.Y c, pixel_convert Plane.Y c,
         pixel_convert Plane.Y c, pixel_convert Plane.Y c]).flatten) ∧
    (∀ m : Nat, (transform_411P (List.replicate (4 * m) c)).2 =
      List.replicate m (pixel_convert Plane.U c, pixel_convert Plane.V c)) ∧
    (∀ (w h : Nat) (aU aV : Nat → Nat),
      (transform410 (fun _ _ => c) w h ⟨aU, aV, [], []⟩).uvs =
        List.replicate ((h / 4) * (w / 4))
          (pixel_convert Plane.U c, pixel_convert Plane.V c)) := by
  refine ⟨?_, ?_, ?_, ?_, ?_, ?_⟩
  · intro tag m
    rw [transform_packed422_eq, pairs_replicate, List.map_replicate]
    cases tag <;> simp [packed422_group_claim, packed422_bytes, sum2, shr1_double]
  · intro m
    rw [transform_422P_uvs, pairs_replicate, List.map_replicate]
    simp [chroma422_claim, sum2, shr1_double]
  · intro w h aU aV
    rw [transform420_uvs_any, chroma420_claim_const]
  · intro m
    rw [transform_Y41P_eq, y41p_claim_replicate]
  · intro m
    rw [transform_411P_uvs, quads_replicate, List.map_replicate]
    simp [chroma411_claim, sum4, shr2_quad]
  · intro w h aU aV
    rw [transform410_uvs_any, chroma410_claim_const]

/-- Claim C10: the uint16 chroma accumulators never wrap: every converted
chroma sample is at most 255, every 4x4 block sum is at most 4080 < 65536,
and every emitted chroma byte equals the exact floor of the arithmetic
mean of the per-pixel converted chroma values of its block (sum / 2 for
the 4:2:2 writers, / 4 for the Y41P and 4:1:1 planar writers, / 4 over
2x2 blocks for the 4:2:0 writer, / 16 over 4x4 blocks for the 4:1:0
writer).  The 4:2:0 and 4:1:0 conjuncts hold for arbitrary widths and
heights: a chroma pair is emitted exactly for each completed block. -/
theorem C10_accumulators_exact :
    (∀ (P : Plane) (p : Rgb), pixel_convert P p ≤ 255) ∧
    (∀ (P : Plane) (px : Nat → Nat → Rgb) (bi bj : Nat),
      blockSum410 P px bi bj ≤ 4080) ∧
    (∀ (tag : Packed422) (ps : List Rgb),
      transform_packed422 tag ps =
        ((pairs ps).map (fun q => packed422_group_claim tag q.1 q.2)).flatten) ∧
    (∀ ps : List Rgb, (transform_422P ps).2 = (pairs ps).map
      (fun q => (sum2 Plane.U q.1 q.2 / 2, sum2 Plane.V q.1 q.2 / 2))) ∧
    (∀ ps : List Rgb, transform_Y41P ps = y41p_mean ps) ∧
    (∀ ps : List Rgb, (transform_411P ps).2 = (quads ps).map
      (fun q => (sum4 Plane.U q.1 q.2.1 q.2.2.1 q.2.2.2 / 4,
                 sum4 Plane.V q.1 q.2.1 q.2.2.1 q.2.2.2 / 4))) ∧
    (∀ (px : Nat → Nat → Rgb) (w h : Nat) (aU aV : Nat → Nat),
      (transform420 px w h ⟨aU, aV, [], []⟩).uvs =
        ((List.range (h / 2)).map (fun bi => (List.range (w / 2)).map (fun bj =>
          (blockSum420 Plane.U px bi bj / 4,
           blockSum420 Plane.V px bi bj / 4)))).flatten) ∧
    (∀ (px : Nat → Nat → Rgb) (w h : Nat) (aU aV : Nat → Nat),
      (transform410 px w h ⟨aU, aV, [], []⟩).uvs =
        ((List.range (h / 4)).map (fun bi => (List.range (w / 4)).map (fun bj =>
          (blockSum410 Plane.U px bi bj / 16,
           blockSum410 Plane.V px bi bj / 16)))).flatten) := by
  have hdiv1 : ∀ s : Nat, s >>> 1 = s / 2 := fun s => by
    rw [Nat.shiftRight_eq_div_pow, Nat.pow_one]
  have hdiv2 : ∀ s : Nat, s >>> 2 = s / 4 := fun s => by
    rw [Nat.shiftRight_eq_div_pow]
  have hdiv4 : ∀ s : Nat, s >>> 4 = s / 16 := fun s => by
    rw [Nat.shiftRight_eq_div_pow]
  refine ⟨pixel_convert_le_255, blockSum410_le, transform_packed422_eq, ?_, ?_, ?_, ?_, ?_⟩
  · intro ps
    rw [transform_422P_uvs]
    simp [chroma422_claim, hdiv1]
  · intro ps
    rw [transform_Y41P_eq, y41p_claim_eq_mean]
  · intro ps
    rw [transform_411P_uvs]
    simp [chroma411_claim, hdiv2]
  · intro px w h aU aV
    rw [transform420_uvs_any]
    unfold chroma420_claim
    simp [hdiv2]
  · intro px w h aU aV
    rw [transform410_uvs_any]
    unfold chroma410_claim
    simp [hdiv4]

end R2Y
